import Mathlib

/-!
Verification development for the trade-surveillance agent repository.

The development shallowly embeds the text-processing core of the repository:

* `JavaCodeModifier` (src/java_executor.py): regex-driven parameter
  injection into Java source text.  The Python regexes are embedded as
  explicit character-list scanners that mirror the regex engine's
  leftmost-match, greedy/backtracking semantics for exactly the patterns
  appearing in the source.  Texts are modelled as ASCII character lists
  (`\w` is modelled as `[A-Za-z0-9_]`, `\s` as the six ASCII whitespace
  characters; the repository's inputs are ASCII Java/YAML sources).
* `ConfigSearcher` (src/config_searcher.py): metadata extraction,
  relevance scoring and ranked search.  The file system walk and the
  external YAML library are modelled as oracle inputs (a list of files,
  each carrying the outcome of `yaml.safe_load` on its content).
  Python floats only ever hold sums of small integer constants here, so
  scores are embedded as `Int` (exact in IEEE double at these sizes).
* `JavaExecutor` (src/java_executor.py): execution pipeline; the external
  process and the wall clock are oracle inputs, report discovery is
  embedded over a list of (name, mtime) entries.

Python exceptions are modelled with `Except String`.
-/

/-! ## Python character classes and small string helpers -/

/-- Python `\s` (ASCII part): space, tab, newline, carriage return,
vertical tab, form feed. -/
def isPySpace (c : Char) : Bool :=
  c = ' ' || c = '\t' || c = '\n' || c = '\r' || c = '\x0b' || c = '\x0c'

/-- Python `\w` (ASCII part): letters, digits, underscore. -/
def isPyWord (c : Char) : Bool :=
  c.isAlpha || c.isDigit || c = '_'

theorem not_space_of_word {c : Char} (h : isPyWord c = true) : isPySpace c = false := by
  revert h
  unfold isPyWord isPySpace Char.isAlpha Char.isDigit Char.isUpper Char.isLower
  by_cases h1 : c = ' ' <;> by_cases h2 : c = '\t' <;> by_cases h3 : c = '\n' <;>
    by_cases h4 : c = '\r' <;> by_cases h5 : c = '\x0b' <;> by_cases h6 : c = '\x0c' <;>
    simp_all <;> subst_vars <;> decide

/-- Greedy munch of a character class: `(s.takeWhile p, s.dropWhile p)`. -/
def munch (p : Char → Bool) (s : List Char) : List Char × List Char :=
  (s.takeWhile p, s.dropWhile p)

theorem munch_split (p : Char → Bool) (s : List Char) :
    s = (munch p s).1 ++ (munch p s).2 :=
  (List.takeWhile_append_dropWhile p s).symm

theorem munch_append {w : List Char} {p : Char → Bool} (hw : ∀ c ∈ w, p c = true) :
    ∀ {r : List Char}, (∀ c, r.head? = some c → p c = false) →
      munch p (w ++ r) = (w, r) := by
  induction w with
  | nil =>
    intro r hr
    unfold munch
    cases r with
    | nil => simp
    | cons c cs =>
      have := hr c (by simp)
      simp [List.takeWhile, List.dropWhile, this]
  | cons c cs ih =>
    intro r hr
    have hc : p c = true := hw c (by simp)
    have ihh := @ih (fun d hd => hw d (by simp [hd])) r hr
    unfold munch at ihh ⊢
    simp only [List.cons_append, List.takeWhile, List.dropWhile, hc]
    have h1 : (cs ++ r).takeWhile p = cs := congrArg Prod.fst ihh
    have h2 : (cs ++ r).dropWhile p = r := congrArg Prod.snd ihh
    simp [h1, h2]

theorem munch_takeWhile_prop (p : Char → Bool) (s : List Char) :
    ∀ c ∈ (munch p s).1, p c = true := by
  intro c hc
  exact List.mem_takeWhile_imp hc

theorem munch_drop_head (p : Char → Bool) (s : List Char) :
    ∀ c, (munch p s).2.head? = some c → p c = false := by
  intro c hc
  have := List.head?_dropWhile_not p s
  cases h : (s.dropWhile p).head? with
  | none => simp [munch, h] at hc
  | some d =>
    simp [munch, h] at hc
    subst hc
    simpa [h] using this

/-- Literal match: `expectLit lit s = some r` iff `s = lit ++ r`. -/
def expectLit : List Char → List Char → Option (List Char)
  | [], s => some s
  | _ :: _, [] => none
  | c :: cs, d :: ds => if c = d then expectLit cs ds else none

theorem expectLit_split : ∀ {lit s r : List Char}, expectLit lit s = some r → s = lit ++ r := by
  intro lit
  induction lit with
  | nil => intro s r h; simpa [expectLit] using (by simpa [expectLit] using h : s = r) ▸ rfl
  | cons c cs ih =>
    intro s r h
    cases s with
    | nil => simp [expectLit] at h
    | cons d ds =>
      by_cases hc : c = d
      · subst hc
        simp only [expectLit, if_pos rfl] at h
        simpa using ih h
      · simp [expectLit, hc] at h

theorem expectLit_append (lit r : List Char) : expectLit lit (lit ++ r) = some r := by
  induction lit with
  | nil => rfl
  | cons c cs ih => simp [expectLit, ih]

/-- Single-character literal. -/
def expectCh (c : Char) (s : List Char) : Option (List Char) :=
  expectLit [c] s

theorem expectCh_split {c : Char} {s r : List Char} (h : expectCh c s = some r) :
    s = c :: r := by
  have := @expectLit_split [c] s r h
  simpa using this

theorem expectCh_cons (c : Char) (r : List Char) : expectCh c (c :: r) = some r := by
  simp [expectCh, expectLit]

/-- Python substring containment: `needle in hay`. -/
def containsSub (needle : List Char) : List Char → Bool
  | [] => needle.isEmpty
  | c :: cs => (expectLit needle (c :: cs)).isSome || containsSub needle cs

/-- Python `str.lower()` (ASCII model). -/
def pyLower (s : List Char) : List Char := s.map Char.toLower

/-- Python `str.strip()` (whitespace strip on both ends). -/
def pyStrip (s : List Char) : List Char :=
  ((s.dropWhile isPySpace).reverse.dropWhile isPySpace).reverse

/-- Python `str.replace('_', ' ')`. -/
def replaceUnderscore (s : List Char) : List Char :=
  s.map (fun c => if c = '_' then ' ' else c)

/-! ## Python values and `JavaCodeModifier._format_value`

`PyVal` models the Python values passed as modification values.  Python's
`int()` / `float()` conversions and `str()` rendering are modelled for
these value shapes; conversions whose exact Python output depends on
IEEE-754 float repr beyond small integers are modelled as raising. -/

inductive PyVal where
  | pyNone
  | pyStr (s : String)
  | pyInt (n : Int)
  | pyBool (b : Bool)
  | pyDate (y m d : Nat)
  | pyList (xs : List String)
deriving DecidableEq

/-- Python `repr` of a value (used when a list is rendered by `str`);
quote escaping inside string values is not modelled.  List values are
modelled as lists of strings, the only element shape the repository uses
(spec §3: the list type tag is list-of-string). -/
def pyReprOf : PyVal → String
  | .pyNone => "None"
  | .pyStr s => "'" ++ s ++ "'"
  | .pyInt n => toString n
  | .pyBool b => if b then "True" else "False"
  | .pyDate y m d =>
      "datetime.datetime(" ++ toString y ++ ", " ++ toString m ++ ", " ++ toString d ++ ", 0, 0)"
  | .pyList xs => "[" ++ String.intercalate ", " (xs.map fun x => "'" ++ x ++ "'") ++ "]"

/-- Zero-padded 2-digit field of `strftime`. -/
def pad2 (n : Nat) : String := if n < 10 then "0" ++ toString n else toString n

/-- Zero-padded 4-digit year field of `strftime`. -/
def pad4 (n : Nat) : String :=
  if n < 10 then "000" ++ toString n
  else if n < 100 then "00" ++ toString n
  else if n < 1000 then "0" ++ toString n
  else toString n

/-- Python `str` of a value (`datetime` renders as `YYYY-MM-DD HH:MM:SS`). -/
def pyStrOf : PyVal → String
  | .pyNone => "None"
  | .pyStr s => s
  | .pyInt n => toString n
  | .pyBool b => if b then "True" else "False"
  | .pyDate y m d => pad4 y ++ "-" ++ pad2 m ++ "-" ++ pad2 d ++ " 00:00:00"
  | .pyList xs => "[" ++ String.intercalate ", " (xs.map fun x => "'" ++ x ++ "'") ++ "]"

/-- Python truthiness (`if value:`). -/
def pyTruthy : PyVal → Bool
  | .pyNone => false
  | .pyStr s => !s.isEmpty
  | .pyInt n => n != 0
  | .pyBool b => b
  | .pyDate _ _ _ => true
  | .pyList xs => !xs.isEmpty

/-- Value of a decimal digit string. -/
def digitsToNat (ds : List Char) : Nat :=
  ds.foldl (fun a c => a * 10 + (c.toNat - Char.toNat '0')) 0

/-- Python `int(str)`: optional surrounding whitespace, optional sign,
then decimal digits; anything else raises `ValueError`. -/
def parsePyInt (s : String) : Except String Int :=
  let cs := pyStrip s.toList
  match cs with
  | '-' :: ds =>
      if !ds.isEmpty && ds.all Char.isDigit then .ok (-(digitsToNat ds : Int))
      else .error "ValueError: invalid literal for int()"
  | '+' :: ds =>
      if !ds.isEmpty && ds.all Char.isDigit then .ok (digitsToNat ds : Int)
      else .error "ValueError: invalid literal for int()"
  | ds =>
      if !ds.isEmpty && ds.all Char.isDigit then .ok (digitsToNat ds : Int)
      else .error "ValueError: invalid literal for int()"

/-- Python `int(value)` for the modelled value shapes. -/
def pyToInt : PyVal → Except String Int
  | .pyInt n => .ok n
  | .pyBool b => .ok (if b then 1 else 0)
  | .pyStr s => parsePyInt s
  | _ => .error "TypeError: int() argument"

/-- Python `str(float(value))`.  Exact for integers up to 2^53 (where the
float is exact and repr stays in positional notation); larger magnitudes
and float-from-string are outside the modelled domain. -/
def pyFloatRepr : PyVal → Except String String
  | .pyInt n =>
      if n.natAbs ≤ 2 ^ 53 then .ok (toString n ++ ".0")
      else .error "float repr beyond modelled range"
  | .pyBool b => .ok (if b then "1.0" else "0.0")
  | .pyStr _ => .error "float(str) repr not modelled"
  | _ => .error "TypeError: float() argument"

namespace JavaCodeModifier

/-- The recursive call `self._format_value(v, 'String')` made for each list
element: `'String'.lower() == 'string'`, so on a string element it yields
the quoted string. -/
def formatAsString (v : String) : String :=
  "\"" ++ v ++ "\""

/-- `JavaCodeModifier._format_value`.  Notes on fidelity: the source tests
`java_type_lower in ('long')` (and `'double'`, `'float'`, `'boolean'`),
which in Python is a *substring* test against that single string, not a
tuple membership test; this is embedded as `containsSub` accordingly.
The `('int', 'integer')` case is a genuine tuple membership test. -/
def _format_value (value : PyVal) (java_type : List Char) : Except String (List Char) :=
  if value = .pyNone then .ok "null".toList
  else
    let t := pyLower java_type
    if t = "string".toList then
      .ok ('"' :: (pyStrOf value).toList ++ ['"'])
    else if t = "int".toList || t = "integer".toList then
      (pyToInt value).map (fun n => (toString n).toList)
    else if containsSub t "long".toList then
      (pyToInt value).map (fun n => (toString n).toList ++ ['L'])
    else if containsSub t "double".toList then
      (pyFloatRepr value).map (fun s => s.toList ++ ['d'])
    else if containsSub t "float".toList then
      (pyFloatRepr value).map (fun s => s.toList ++ ['f'])
    else if containsSub t "boolean".toList then
      .ok (if pyTruthy value then "true".toList else "false".toList)
    else if t = "date".toList then
      match value with
      | .pyDate y m d =>
          .ok ("Date.parse(\"".toList ++ (pad4 y ++ "-" ++ pad2 m ++ "-" ++ pad2 d).toList
                ++ "\")".toList)
      | _ => .ok ("Date.parse(\"".toList ++ (pyStrOf value).toList ++ "\")".toList)
    else if "list".toList.isPrefixOf t then
      match value with
      | .pyList xs =>
          .ok ("Arrays.asList(".toList
                ++ (String.intercalate ", " (xs.map formatAsString)).toList ++ [')'])
      | _ => .ok ('"' :: (pyStrOf value).toList ++ ['"'])
    else .ok ('"' :: (pyStrOf value).toList ++ ['"'])

end JavaCodeModifier

/-! ## The `@Parameter` pattern scanner

Embeds the regex of `JavaCodeModifier._replace_parameter`:

  `(@Parameter\s*\(\s*"NAME"\s*\))\s*\n\s*(?:private\s+)?(\w+)\s+(\w+)\s*=\s*[^;]+;`

as a deterministic scanner with the regex engine's backtracking choices
made explicit (the optional `private\s+` group falls back to matching the
first `(\w+)` at the same position; the `=\s*[^;]+;` tail backtracks one
whitespace character when everything before the `;` is whitespace). -/

namespace JavaCodeModifier

/-- Word run (`(\w+)`): at least one `\w` character, greedily. -/
def parseWord (s : List Char) : Option (List Char × List Char) :=
  let (w, r) := munch isPyWord s
  if w.isEmpty then none else some (w, r)

/-- Whitespace run (`\s+`): at least one `\s` character, greedily. -/
def parseWs1 (s : List Char) : Option (List Char × List Char) :=
  let (w, r) := munch isPySpace s
  if w.isEmpty then none else some (w, r)

/-- The annotation group `@Parameter\s*\(\s*"NAME"\s*\)`; returns the three
whitespace runs and the remaining text. -/
def parseAnn (name s : List Char) : Option (List Char × List Char × List Char × List Char) :=
  (expectLit "@Parameter".toList s).bind fun s1 =>
  let (w1, s2) := munch isPySpace s1
  (expectCh '(' s2).bind fun s3 =>
  let (w2, s4) := munch isPySpace s3
  (expectCh '"' s4).bind fun s5 =>
  (expectLit name s5).bind fun s6 =>
  (expectCh '"' s6).bind fun s7 =>
  let (w3, s8) := munch isPySpace s7
  (expectCh ')' s8).map fun s9 => (w1, w2, w3, s9)

/-- The tail `\s*=\s*[^;]+;` after the variable token: returns the
whitespace before `=`, the whitespace after `=`, the literal (`[^;]+`,
greedy up to the first `;`) and the text after the `;`.  When all
characters between `=` and `;` are whitespace the regex backtracks so that
`[^;]+` gets the last whitespace character. -/
def parseEqLit (s : List Char) : Option (List Char × List Char × List Char × List Char) :=
  let (wA, s1) := munch isPySpace s
  (expectCh '=' s1).bind fun s2 =>
  let (w, r) := munch isPySpace s2
  match r with
  | [] => none
  | c :: r2 =>
    if c = ';' then
      match w.reverse with
      | [] => none
      | lc :: wrev => some (wA, wrev.reverse, [lc], r2)
    else
      let lit := (c :: r2).takeWhile (fun d => d ≠ ';')
      match (c :: r2).dropWhile (fun d => d ≠ ';') with
      | ';' :: r3 => some (wA, w, lit, r3)
      | _ => none

/-- The declaration core `(\w+)\s+(\w+)\s*=\s*[^;]+;`:
(type, ws, name, wsA, wsB, literal, rest). -/
def declCore (s : List Char) :
    Option (List Char × List Char × List Char × List Char × List Char × List Char × List Char) :=
  (parseWord s).bind fun tw =>
  (parseWs1 tw.2).bind fun ww =>
  (parseWord ww.2).bind fun nw =>
  (parseEqLit nw.2).map fun q => (tw.1, ww.1, nw.1, q.1, q.2.1, q.2.2.1, q.2.2.2)

/-- One match of the `@Parameter` pattern, split into its constituents.
`annW1/annW2/annW3` are the whitespace runs inside the annotation group,
`wsNl` the run between annotation and declaration (contains a newline),
`mods` is `private` plus its trailing whitespace or empty, `ty`/`nm` the
two word groups, `wsEqA`/`wsEqB` the runs around `=`, `lit` the `[^;]+`
group and `rest` the text after the matched `;`. -/
structure ParamMatch where
  annW1 : List Char
  annW2 : List Char
  annW3 : List Char
  wsNl : List Char
  mods : List Char
  ty : List Char
  wsTyNm : List Char
  nm : List Char
  wsEqA : List Char
  wsEqB : List Char
  lit : List Char
  rest : List Char
deriving DecidableEq

/-- The annotation text (regex group 1) rebuilt from its constituents. -/
def annText (name : List Char) (m : ParamMatch) : List Char :=
  "@Parameter".toList ++ m.annW1 ++ '(' :: m.annW2 ++ '"' :: name
    ++ '"' :: m.annW3 ++ [')']

/-- The full matched span of the `@Parameter` pattern. -/
def paramMatched (name : List Char) (m : ParamMatch) : List Char :=
  annText name m ++ m.wsNl ++ m.mods ++ m.ty ++ m.wsTyNm ++ m.nm
    ++ m.wsEqA ++ '=' :: m.wsEqB ++ m.lit ++ [';']

/-- Match of the whole `@Parameter` pattern anchored at the head of `s`. -/
def matchParamAt (name s : List Char) : Option ParamMatch :=
  (parseAnn name s).bind fun aw =>
  let (wnl, s2) := munch isPySpace aw.2.2.2
  if wnl.contains '\n' then
    let withPriv : Option ParamMatch :=
      (expectLit "private".toList s2).bind fun s3 =>
      let (pw, s4) := munch isPySpace s3
      if pw.isEmpty then none
      else (declCore s4).map fun d =>
        ⟨aw.1, aw.2.1, aw.2.2.1, wnl, "private".toList ++ pw,
         d.1, d.2.1, d.2.2.1, d.2.2.2.1, d.2.2.2.2.1, d.2.2.2.2.2.1, d.2.2.2.2.2.2⟩
    withPriv <|> ((declCore s2).map fun d =>
      ⟨aw.1, aw.2.1, aw.2.2.1, wnl, [],
       d.1, d.2.1, d.2.2.1, d.2.2.2.1, d.2.2.2.2.1, d.2.2.2.2.2.1, d.2.2.2.2.2.2⟩)
  else none

/-- Leftmost match of the `@Parameter` pattern (`Pattern.search`):
returns the text before the match and the match. -/
def findParam (name : List Char) : List Char → Option (List Char × ParamMatch)
  | [] => (matchParamAt name []).map fun m => ([], m)
  | c :: t =>
    match matchParamAt name (c :: t) with
    | some m => some ([], m)
    | none => (findParam name t).map fun pm => (c :: pm.1, pm.2)

/-- `JavaCodeModifier._replace_parameter`.  On a match, the whole matched
span is replaced by `f'{annotation}\n    private {var_type} {var_name} = {formatted_value};'`.
Backslash escape processing that `Pattern.sub` applies to the replacement
string is not modelled (no input considered here contains a backslash). -/
def _replace_parameter (content : List Char) (param_name : List Char) (new_value : PyVal) :
    Except String (List Char) :=
  match findParam param_name content with
  | none => .ok content
  | some (pre, m) =>
    (_format_value new_value m.ty).map fun fv =>
      pre ++ annText param_name m ++ '\n' :: "    private ".toList
        ++ m.ty ++ ' ' :: m.nm ++ " = ".toList ++ fv ++ ';' :: m.rest

end JavaCodeModifier

/-! ## The bare variable-assignment pattern scanner

Embeds the regex of `JavaCodeModifier._replace_variable`:

  `((?:private|public|protected)?\s*(?:static\s+)?(?:final\s+)?(\w+)\s+NAME)\s*=\s*[^;]+;`

Each optional group prefers to match and falls back on downstream failure,
in regex backtracking order. -/

namespace JavaCodeModifier

/-- One match of the bare-variable pattern: `g1` is regex group 1 (the
declaration up to and including the variable name, with its original
spacing), `ty` regex group 2. -/
structure VarMatch where
  g1 : List Char
  ty : List Char
  wsEqA : List Char
  wsEqB : List Char
  lit : List Char
  rest : List Char
deriving DecidableEq

/-- The full matched span of the bare-variable pattern. -/
def varMatched (m : VarMatch) : List Char :=
  m.g1 ++ m.wsEqA ++ '=' :: m.wsEqB ++ m.lit ++ [';']

/-- The alternation `private|public|protected` (tried in that order). -/
def tryMod (s : List Char) : Option (List Char × List Char) :=
  match expectLit "private".toList s with
  | some r => some ("private".toList, r)
  | none =>
    match expectLit "public".toList s with
    | some r => some ("public".toList, r)
    | none =>
      match expectLit "protected".toList s with
      | some r => some ("protected".toList, r)
      | none => none

/-- The core `(\w+)\s+NAME\s*=\s*[^;]+;` with `pre` the group-1 text
accumulated so far. -/
def varCore (name pre s : List Char) : Option VarMatch :=
  (parseWord s).bind fun tw =>
  (parseWs1 tw.2).bind fun ww =>
  (expectLit name ww.2).bind fun s3 =>
  (parseEqLit s3).map fun q =>
    ⟨pre ++ tw.1 ++ ww.1 ++ name, tw.1, q.1, q.2.1, q.2.2.1, q.2.2.2⟩

/-- The optional `(?:final\s+)?` group. -/
def varFinals (name pre s : List Char) : Option VarMatch :=
  match expectLit "final".toList s with
  | some s1 =>
    let (w, s2) := munch isPySpace s1
    if w.isEmpty then varCore name pre s
    else (varCore name (pre ++ "final".toList ++ w) s2) <|> varCore name pre s
  | none => varCore name pre s

/-- The optional `(?:static\s+)?` group. -/
def varStatics (name pre s : List Char) : Option VarMatch :=
  match expectLit "static".toList s with
  | some s1 =>
    let (w, s2) := munch isPySpace s1
    if w.isEmpty then varFinals name pre s
    else (varFinals name (pre ++ "static".toList ++ w) s2) <|> varFinals name pre s
  | none => varFinals name pre s

/-- Match of the whole bare-variable pattern anchored at the head of `s`.
The leading `\s*` after the (possibly skipped) modifier alternation can
consume whitespace at the match position. -/
def matchVarAt (name s : List Char) : Option VarMatch :=
  let noMod : Option VarMatch :=
    let (w0, s2) := munch isPySpace s
    varStatics name w0 s2
  match tryMod s with
  | some mr =>
    (let (w0, s2) := munch isPySpace mr.2
     varStatics name (mr.1 ++ w0) s2) <|> noMod
  | none => noMod

/-- Leftmost match of the bare-variable pattern. -/
def findVar (name : List Char) : List Char → Option (List Char × VarMatch)
  | [] => (matchVarAt name []).map fun m => ([], m)
  | c :: t =>
    match matchVarAt name (c :: t) with
    | some m => some ([], m)
    | none => (findVar name t).map fun pm => (c :: pm.1, pm.2)

/-- `JavaCodeModifier._replace_variable`: replace the matched span by
`f'{declaration} = {formatted_value};'` with `declaration` = group 1. -/
def _replace_variable (content : List Char) (var_name : List Char) (new_value : PyVal) :
    Except String (List Char) :=
  match findVar var_name content with
  | none => .ok content
  | some (pre, m) =>
    (_format_value new_value m.ty).map fun fv =>
      pre ++ m.g1 ++ " = ".toList ++ fv ++ ';' :: m.rest

/-- `JavaCodeModifier.modify_parameters`: for each (name, value) pair in
order, run `_replace_parameter` then `_replace_variable` on the current
text.  The modification dict is modelled as an association list in
insertion order (Python dict iteration order). -/
def modify_parameters (java_content : List Char) (modifications : List (List Char × PyVal)) :
    Except String (List Char) :=
  modifications.foldlM
    (fun modified nv => do
      let a ← _replace_parameter modified nv.1 nv.2
      _replace_variable a nv.1 nv.2)
    java_content

end JavaCodeModifier

/-! ## Span lemmas: a successful match decomposes its input exactly -/

namespace JavaCodeModifier

theorem parseWord_split {s w r : List Char} (h : parseWord s = some (w, r)) :
    s = w ++ r ∧ w ≠ [] ∧ (∀ c ∈ w, isPyWord c = true) := by
  unfold parseWord at h
  cases hm : munch isPyWord s with
  | mk w0 r0 =>
    rw [hm] at h
    by_cases he : w0.isEmpty
    · simp [he] at h
    · simp only [he, Bool.false_eq_true, not_false_eq_true, if_false, Option.some.injEq,
        Prod.mk.injEq] at h
      obtain ⟨h1, h2⟩ := h
      subst h1 h2
      refine ⟨?_, by simpa [List.isEmpty_iff] using he, ?_⟩
      · have := munch_split isPyWord s; rw [hm] at this; exact this
      · have := munch_takeWhile_prop isPyWord s; rw [hm] at this; exact this

theorem parseWs1_split {s w r : List Char} (h : parseWs1 s = some (w, r)) :
    s = w ++ r ∧ w ≠ [] ∧ (∀ c ∈ w, isPySpace c = true) := by
  unfold parseWs1 at h
  cases hm : munch isPySpace s with
  | mk w0 r0 =>
    rw [hm] at h
    by_cases he : w0.isEmpty
    · simp [he] at h
    · simp only [he, Bool.false_eq_true, not_false_eq_true, if_false, Option.some.injEq,
        Prod.mk.injEq] at h
      obtain ⟨h1, h2⟩ := h
      subst h1 h2
      refine ⟨?_, by simpa [List.isEmpty_iff] using he, ?_⟩
      · have := munch_split isPySpace s; rw [hm] at this; exact this
      · have := munch_takeWhile_prop isPySpace s; rw [hm] at this; exact this

theorem parseAnn_split {name s w1 w2 w3 r : List Char}
    (h : parseAnn name s = some (w1, w2, w3, r)) :
    s = "@Parameter".toList ++ w1 ++ '(' :: w2 ++ '"' :: name ++ '"' :: w3 ++ ')' :: r
      ∧ (∀ c ∈ w1, isPySpace c = true) ∧ (∀ c ∈ w2, isPySpace c = true)
      ∧ (∀ c ∈ w3, isPySpace c = true) := by
  unfold parseAnn at h
  cases h1 : expectLit "@Parameter".toList s with
  | none => rw [h1] at h; simp at h
  | some s1 =>
  rw [h1] at h
  simp only [Option.bind_eq_bind, Option.some_bind] at h
  cases hm1 : munch isPySpace s1 with
  | mk w1x s2 =>
  rw [hm1] at h
  dsimp only at h
  cases h2 : expectCh '(' s2 with
  | none => rw [h2] at h; simp at h
  | some s3 =>
  rw [h2] at h
  simp only [Option.some_bind] at h
  cases hm2 : munch isPySpace s3 with
  | mk w2x s4 =>
  rw [hm2] at h
  dsimp only at h
  cases h3 : expectCh '"' s4 with
  | none => rw [h3] at h; simp at h
  | some s5 =>
  rw [h3] at h
  simp only [Option.some_bind] at h
  cases h4 : expectLit name s5 with
  | none => rw [h4] at h; simp at h
  | some s6 =>
  rw [h4] at h
  simp only [Option.some_bind] at h
  cases h5 : expectCh '"' s6 with
  | none => rw [h5] at h; simp at h
  | some s7 =>
  rw [h5] at h
  simp only [Option.some_bind] at h
  cases hm3 : munch isPySpace s7 with
  | mk w3x s8 =>
  rw [hm3] at h
  dsimp only at h
  cases h6 : expectCh ')' s8 with
  | none => rw [h6] at h; simp at h
  | some s9 =>
  rw [h6] at h
  simp only [Option.map_some', Option.some.injEq, Prod.mk.injEq] at h
  obtain ⟨e1, e2, e3, e4⟩ := h
  subst e1 e2 e3 e4
  have p1 := munch_takeWhile_prop isPySpace s1
  have p2 := munch_takeWhile_prop isPySpace s3
  have p3 := munch_takeWhile_prop isPySpace s7
  rw [hm1] at p1; rw [hm2] at p2; rw [hm3] at p3
  refine ⟨?_, p1, p2, p3⟩
  have q1 := munch_split isPySpace s1; rw [hm1] at q1
  have q2 := munch_split isPySpace s3; rw [hm2] at q2
  have q3 := munch_split isPySpace s7; rw [hm3] at q3
  simp only at q1 q2 q3
  rw [expectLit_split h1, q1, expectCh_split h2, q2, expectCh_split h3,
    expectLit_split h4, expectCh_split h5, q3, expectCh_split h6]
  simp

theorem parseEqLit_split {s wA wB lit r : List Char}
    (h : parseEqLit s = some (wA, wB, lit, r)) :
    s = wA ++ '=' :: wB ++ lit ++ ';' :: r ∧ lit ≠ [] ∧ ';' ∉ lit
      ∧ (∀ c ∈ wA, isPySpace c = true) := by
  unfold parseEqLit at h
  cases hm0 : munch isPySpace s with
  | mk wA0 s1 =>
  rw [hm0] at h
  dsimp only at h
  cases h1 : expectCh '=' s1 with
  | none => rw [h1] at h; simp at h
  | some s2 =>
  rw [h1] at h
  simp only [Option.bind_eq_bind, Option.some_bind] at h
  cases hm1 : munch isPySpace s2 with
  | mk w r0 =>
  rw [hm1] at h
  dsimp only at h
  have hsplit0 := munch_split isPySpace s; rw [hm0] at hsplit0; simp only at hsplit0
  have hprop0 := munch_takeWhile_prop isPySpace s; rw [hm0] at hprop0
  have hsplit1 := munch_split isPySpace s2; rw [hm1] at hsplit1; simp only at hsplit1
  have hprop1 := munch_takeWhile_prop isPySpace s2; rw [hm1] at hprop1
  cases r0 with
  | nil => simp at h
  | cons c r2 =>
  by_cases hc : c = ';'
  · subst hc
    simp only [if_pos rfl] at h
    cases hwrev : w.reverse with
    | nil => rw [hwrev] at h; simp at h
    | cons lc wrev =>
      rw [hwrev] at h
      simp at h
      obtain ⟨e1, e2, e3, e4⟩ := h
      subst e1 e2 e3 e4
      have hw : w = wrev.reverse ++ [lc] := by
        have := congrArg List.reverse hwrev
        simpa using this
      have hlc : isPySpace lc = true := hprop1 lc (by rw [hw]; simp)
      refine ⟨?_, by simp, ?_, hprop0⟩
      · rw [hsplit0, expectCh_split h1, hsplit1, hw]
        simp
      · intro hmem
        simp at hmem
        rw [← hmem] at hlc
        simp [isPySpace] at hlc
  · simp only [if_neg hc] at h
    cases hdw : List.dropWhile (fun d => decide (d ≠ ';')) (c :: r2) with
    | nil => rw [hdw] at h; simp at h
    | cons d r3 =>
      rw [hdw] at h
      by_cases hd : d = ';'
      · subst hd
        simp at h
        obtain ⟨e1, e2, e3, e4⟩ := h
        subst e1 e2 e3 e4
        simp only [ne_eq, decide_not] at hdw
        have hsplit := List.takeWhile_append_dropWhile (fun d => !decide (d = ';')) (c :: r2)
        rw [hdw] at hsplit
        generalize hT : List.takeWhile (fun d => !decide (d = ';')) (c :: r2) = T at hsplit ⊢
        refine ⟨?_, ?_, ?_, hprop0⟩
        · rw [hsplit0, expectCh_split h1, hsplit1, ← hsplit]
          simp
        · rw [← hT]
          simp [List.takeWhile_cons, hc]
        · intro hmem
          rw [← hT] at hmem
          have := List.mem_takeWhile_imp hmem
          simp at this
      · split at h
        · rename_i heq
          injection heq with heq1 heq2
          exact absurd heq1 hd
        · simp at h

end JavaCodeModifier

namespace JavaCodeModifier

theorem declCore_split {s ty w nm wA wB lit r : List Char}
    (h : declCore s = some (ty, w, nm, wA, wB, lit, r)) :
    s = ty ++ w ++ nm ++ wA ++ '=' :: wB ++ lit ++ ';' :: r
      ∧ ty ≠ [] ∧ (∀ c ∈ ty, isPyWord c = true)
      ∧ w ≠ [] ∧ (∀ c ∈ w, isPySpace c = true)
      ∧ nm ≠ [] ∧ (∀ c ∈ nm, isPyWord c = true)
      ∧ lit ≠ [] ∧ ';' ∉ lit := by
  unfold declCore at h
  cases h1 : parseWord s with
  | none => rw [h1] at h; simp at h
  | some tw =>
  rw [h1] at h
  simp only [Option.bind_eq_bind, Option.some_bind] at h
  cases h2 : parseWs1 tw.2 with
  | none => rw [h2] at h; simp at h
  | some ww =>
  rw [h2] at h
  simp only [Option.some_bind] at h
  cases h3 : parseWord ww.2 with
  | none => rw [h3] at h; simp at h
  | some nw =>
  rw [h3] at h
  simp only [Option.some_bind] at h
  cases h4 : parseEqLit nw.2 with
  | none => rw [h4] at h; simp at h
  | some q =>
  obtain ⟨qa, qb, qc, qd⟩ := q
  rw [h4] at h
  simp only [Option.map_some', Option.some.injEq, Prod.mk.injEq] at h
  obtain ⟨e1, e2, e3, e4, e5, e6, e7⟩ := h
  obtain ⟨hs1, hne1, hw1⟩ := parseWord_split (by rw [h1])
  obtain ⟨hs2, hne2, hw2⟩ := parseWs1_split (by rw [h2])
  obtain ⟨hs3, hne3, hw3⟩ := parseWord_split (by rw [h3])
  obtain ⟨hs4, hlitne, hlitnot, _⟩ := parseEqLit_split h4
  subst e1 e2 e3
  refine ⟨?_, hne1, hw1, hne2, hw2, hne3, hw3, ?_, ?_⟩
  · rw [hs1, hs2, hs3, hs4, ← e4, ← e5, ← e6, ← e7]
    simp
  · rw [← e6]; exact hlitne
  · rw [← e6]; exact hlitnot

/-- Well-formedness facts produced by a successful `@Parameter` match. -/
def ParamWF (m : ParamMatch) : Prop :=
  (∀ c ∈ m.annW1, isPySpace c = true) ∧ (∀ c ∈ m.annW2, isPySpace c = true)
    ∧ (∀ c ∈ m.annW3, isPySpace c = true)
    ∧ (∀ c ∈ m.wsNl, isPySpace c = true) ∧ m.wsNl.contains '\n' = true
    ∧ m.ty ≠ [] ∧ (∀ c ∈ m.ty, isPyWord c = true)
    ∧ m.nm ≠ [] ∧ (∀ c ∈ m.nm, isPyWord c = true)
    ∧ m.lit ≠ [] ∧ ';' ∉ m.lit

theorem matchParamAt_split {name s : List Char} {m : ParamMatch}
    (h : matchParamAt name s = some m) :
    s = paramMatched name m ++ m.rest ∧ ParamWF m := by
  unfold matchParamAt at h
  cases h1 : parseAnn name s with
  | none => rw [h1] at h; simp at h
  | some aw =>
  rw [h1] at h
  simp only [Option.bind_eq_bind, Option.some_bind] at h
  obtain ⟨w1, w2, w3, s1⟩ := aw
  obtain ⟨hsann, hw1, hw2, hw3⟩ := parseAnn_split (by rw [h1])
  dsimp only at h
  cases hm : munch isPySpace s1 with
  | mk wnl s2 =>
  rw [hm] at h
  dsimp only at h
  have hs1 : s1 = wnl ++ s2 := by
    have := munch_split isPySpace s1; rw [hm] at this; exact this
  have hwnl : ∀ c ∈ wnl, isPySpace c = true := by
    have := munch_takeWhile_prop isPySpace s1; rw [hm] at this; exact this
  by_cases hnl : wnl.contains '\n'
  · rw [if_pos hnl] at h
    cases hp : expectLit "private".toList s2 with
    | some s3 =>
      rw [hp] at h
      simp only [Option.bind_eq_bind, Option.some_bind] at h
      cases hm2 : munch isPySpace s3 with
      | mk pw s4 =>
      rw [hm2] at h
      dsimp only at h
      have hs3 : s3 = pw ++ s4 := by
        have := munch_split isPySpace s3; rw [hm2] at this; exact this
      by_cases hpw : pw.isEmpty
      · simp only [hpw, if_true] at h
        simp only [Option.none_orElse] at h
        cases h5 : declCore s2 with
        | none => rw [h5] at h; simp at h
        | some d =>
          rw [h5] at h
          simp only [Option.map_some', Option.some.injEq] at h
          obtain ⟨ty, w, nm, wA, wB, lit, r⟩ := d
          obtain ⟨hsp, hne1, hwd1, hne2, hws2, hne3, hwd3, hlitne, hlitnot⟩ :=
            declCore_split (by rw [h5])
          subst h
          refine ⟨?_, hw1, hw2, hw3, hwnl, hnl, hne1, hwd1, hne3, hwd3, hlitne, hlitnot⟩
          rw [hsann, hs1, hsp]
          unfold paramMatched annText
          simp
      · simp only [hpw, Bool.false_eq_true, if_false] at h
        cases h5 : declCore s4 with
        | none =>
          rw [h5] at h
          simp only [Option.map_none', Option.none_orElse] at h
          cases h6 : declCore s2 with
          | none => rw [h6] at h; simp at h
          | some d =>
            rw [h6] at h
            simp only [Option.map_some', Option.some.injEq] at h
            obtain ⟨ty, w, nm, wA, wB, lit, r⟩ := d
            obtain ⟨hsp, hne1, hwd1, hne2, hws2, hne3, hwd3, hlitne, hlitnot⟩ :=
              declCore_split (by rw [h6])
            subst h
            refine ⟨?_, hw1, hw2, hw3, hwnl, hnl, hne1, hwd1, hne3, hwd3, hlitne, hlitnot⟩
            rw [hsann, hs1, hsp]
            unfold paramMatched annText
            simp
        | some d =>
          rw [h5] at h
          simp only [Option.map_some', Option.some_orElse, Option.some.injEq] at h
          obtain ⟨ty, w, nm, wA, wB, lit, r⟩ := d
          obtain ⟨hsp, hne1, hwd1, hne2, hws2, hne3, hwd3, hlitne, hlitnot⟩ :=
            declCore_split (by rw [h5])
          subst h
          refine ⟨?_, hw1, hw2, hw3, hwnl, hnl, hne1, hwd1, hne3, hwd3, hlitne, hlitnot⟩
          rw [hsann, hs1, expectLit_split hp, hs3, hsp]
          unfold paramMatched annText
          simp
    | none =>
      rw [hp] at h
      simp only [Option.none_bind, Option.none_orElse] at h
      cases h5 : declCore s2 with
      | none => rw [h5] at h; simp at h
      | some d =>
        rw [h5] at h
        simp only [Option.map_some', Option.some.injEq] at h
        obtain ⟨ty, w, nm, wA, wB, lit, r⟩ := d
        obtain ⟨hsp, hne1, hwd1, hne2, hws2, hne3, hwd3, hlitne, hlitnot⟩ :=
          declCore_split (by rw [h5])
        subst h
        refine ⟨?_, hw1, hw2, hw3, hwnl, hnl, hne1, hwd1, hne3, hwd3, hlitne, hlitnot⟩
        rw [hsann, hs1, hsp]
        unfold paramMatched annText
        simp
  · rw [if_neg hnl] at h
    simp at h

theorem findParam_split {name : List Char} : ∀ {s pre : List Char} {m : ParamMatch},
    findParam name s = some (pre, m) →
    s = pre ++ paramMatched name m ++ m.rest ∧ ParamWF m := by
  intro s
  induction s with
  | nil =>
    intro pre m h
    unfold findParam at h
    cases h1 : matchParamAt name [] with
    | none => rw [h1] at h; simp at h
    | some m0 =>
      rw [h1] at h
      simp only [Option.map_some', Option.some.injEq, Prod.mk.injEq] at h
      obtain ⟨e1, e2⟩ := h
      subst e1 e2
      obtain ⟨hs, hwf⟩ := matchParamAt_split h1
      exact ⟨by simpa using hs, hwf⟩
  | cons c t ih =>
    intro pre m h
    unfold findParam at h
    cases h1 : matchParamAt name (c :: t) with
    | some m0 =>
      rw [h1] at h
      simp only [Option.some.injEq, Prod.mk.injEq] at h
      obtain ⟨e1, e2⟩ := h
      subst e1 e2
      obtain ⟨hs, hwf⟩ := matchParamAt_split h1
      exact ⟨by simpa using hs, hwf⟩
    | none =>
      rw [h1] at h
      cases h2 : findParam name t with
      | none => rw [h2] at h; simp at h
      | some pm =>
        rw [h2] at h
        simp only [Option.map_some', Option.some.injEq] at h
        obtain ⟨pre0, m0⟩ := pm
        obtain ⟨hs, hwf⟩ := ih h2
        dsimp only at h
        simp only [Prod.mk.injEq] at h
        obtain ⟨e1, e2⟩ := h
        subst e1 e2
        refine ⟨?_, hwf⟩
        rw [hs]
        simp

end JavaCodeModifier

/-! ## Re-parse lemmas: the normalized replacement matches again

`_replace_parameter` rewrites the matched span to
`annotation ++ "\n    private " ++ ty ++ " " ++ nm ++ " = " ++ fv ++ ";"`.
These lemmas show that, under mild conditions on the formatted value, the
`@Parameter` pattern matches this normalized declaration again with the
same groups (`lit` now being the formatted value). -/

namespace JavaCodeModifier

/-- The normalized declaration text emitted by `_replace_parameter`
(everything after the annotation group). -/
def normDecl (ty nm fv : List Char) : List Char :=
  '\n' :: "    private ".toList ++ ty ++ ' ' :: nm ++ " = ".toList ++ fv ++ [';']

theorem head_append_of_ne {l r : List Char} (h : l ≠ []) :
    (l ++ r).head? = l.head? := by
  cases l with
  | nil => exact absurd rfl h
  | cons c t => simp

theorem parseAnn_canonical {name w1 w2 w3 r : List Char}
    (hw1 : ∀ c ∈ w1, isPySpace c = true) (hw2 : ∀ c ∈ w2, isPySpace c = true)
    (hw3 : ∀ c ∈ w3, isPySpace c = true) :
    parseAnn name ("@Parameter".toList
        ++ (w1 ++ '(' :: (w2 ++ '"' :: (name ++ '"' :: (w3 ++ ')' :: r))))) =
      some (w1, w2, w3, r) := by
  have hA : ∀ c, (('(' :: (w2 ++ '"' :: (name ++ '"' :: (w3 ++ ')' :: r)))) : List Char).head?
      = some c → isPySpace c = false := by
    intro c hc; simp at hc; rw [← hc]; decide
  have hB : ∀ c, (('"' :: (name ++ '"' :: (w3 ++ ')' :: r))) : List Char).head?
      = some c → isPySpace c = false := by
    intro c hc; simp at hc; rw [← hc]; decide
  have hC : ∀ c, ((')' :: r) : List Char).head? = some c → isPySpace c = false := by
    intro c hc; simp at hc; rw [← hc]; decide
  unfold parseAnn
  rw [expectLit_append]
  simp only [Option.bind_eq_bind, Option.some_bind]
  rw [munch_append hw1 hA]
  dsimp only
  rw [expectCh_cons]
  simp only [Option.some_bind]
  rw [munch_append hw2 hB]
  dsimp only
  rw [expectCh_cons]
  simp only [Option.some_bind]
  rw [expectLit_append]
  simp only [Option.some_bind]
  rw [expectCh_cons]
  simp only [Option.some_bind]
  rw [munch_append hw3 hC]
  dsimp only
  rw [expectCh_cons]
  rfl

theorem parseWord_canonical {w r : List Char} (hne : w ≠ [])
    (hw : ∀ c ∈ w, isPyWord c = true)
    (hr : ∀ c, r.head? = some c → isPyWord c = false) :
    parseWord (w ++ r) = some (w, r) := by
  unfold parseWord
  rw [munch_append hw hr]
  simp [List.isEmpty_iff, hne]

theorem parseWs1_canonical {w r : List Char} (hne : w ≠ [])
    (hw : ∀ c ∈ w, isPySpace c = true)
    (hr : ∀ c, r.head? = some c → isPySpace c = false) :
    parseWs1 (w ++ r) = some (w, r) := by
  unfold parseWs1
  rw [munch_append hw hr]
  simp [List.isEmpty_iff, hne]

theorem parseEqLit_canonical {fv post : List Char} (hfv : fv ≠ []) (hsemi : ';' ∉ fv)
    (hhead : isPySpace fv.headI = false) :
    parseEqLit (' ' :: '=' :: ' ' :: (fv ++ ';' :: post)) = some ([' '], [' '], fv, post) := by
  unfold parseEqLit
  have hmA : munch isPySpace (' ' :: '=' :: ' ' :: (fv ++ ';' :: post))
      = ([' '], '=' :: ' ' :: (fv ++ ';' :: post)) := by
    have := munch_append (w := [' ']) (p := isPySpace) (by intro c hc; simp at hc; rw [hc]; decide)
      (r := '=' :: ' ' :: (fv ++ ';' :: post)) (fun c hc => by simp at hc; rw [← hc]; decide)
    simpa using this
  rw [hmA]
  dsimp only
  rw [expectCh_cons]
  simp only [Option.bind_eq_bind, Option.some_bind]
  have hmB : munch isPySpace (' ' :: (fv ++ ';' :: post)) = ([' '], fv ++ ';' :: post) := by
    have := munch_append (w := [' ']) (p := isPySpace) (by intro c hc; simp at hc; rw [hc]; decide)
      (r := fv ++ ';' :: post)
      (fun c hc => by
        rw [head_append_of_ne hfv] at hc
        cases fv with
        | nil => exact absurd rfl hfv
        | cons f0 ftl =>
          simp at hc
          rw [← hc]
          simpa using hhead)
    simpa using this
  rw [hmB]
  dsimp only
  cases fv with
  | nil => exact absurd rfl hfv
  | cons f0 ftl =>
    have hf0 : ¬f0 = ';' := by
      intro hh
      exact hsemi (by rw [hh] at *; exact List.mem_cons_self ..)
    simp only [List.cons_append]
    rw [if_neg hf0]
    have htk : List.takeWhile (fun d => decide (d ≠ ';')) (f0 :: (ftl ++ ';' :: post))
        = f0 :: ftl := by
      have hx := munch_append (p := fun d => decide (d ≠ ';'))
        (w := f0 :: ftl)
        (by
          intro c hc
          simp only [decide_eq_true_eq]
          intro hceq
          exact hsemi (by rw [← hceq]; exact hc))
        (r := ';' :: post) (fun c hc => by simp at hc; rw [← hc]; simp)
      have := congrArg Prod.fst hx
      simpa [munch] using this
    have hdr : List.dropWhile (fun d => decide (d ≠ ';')) (f0 :: (ftl ++ ';' :: post))
        = ';' :: post := by
      have hx := munch_append (p := fun d => decide (d ≠ ';'))
        (w := f0 :: ftl)
        (by
          intro c hc
          simp only [decide_eq_true_eq]
          intro hceq
          exact hsemi (by rw [← hceq]; exact hc))
        (r := ';' :: post) (fun c hc => by simp at hc; rw [← hc]; simp)
      have := congrArg Prod.snd hx
      simpa [munch] using this
    rw [show (f0 :: (ftl ++ ';' :: post) : List Char) = (f0 :: ftl) ++ ';' :: post by simp] at htk hdr
    simp only [List.cons_append] at htk hdr
    rw [htk, hdr]
    simp

end JavaCodeModifier

namespace JavaCodeModifier

theorem declCore_canonical {ty nm fv post : List Char}
    (hty : ty ≠ []) (htyw : ∀ c ∈ ty, isPyWord c = true)
    (hnm : nm ≠ []) (hnmw : ∀ c ∈ nm, isPyWord c = true)
    (hfv : fv ≠ []) (hsemi : ';' ∉ fv) (hhead : isPySpace fv.headI = false) :
    declCore (ty ++ ' ' :: (nm ++ ' ' :: '=' :: ' ' :: (fv ++ ';' :: post)))
      = some (ty, [' '], nm, [' '], [' '], fv, post) := by
  unfold declCore
  rw [parseWord_canonical hty htyw (fun c hc => by simp at hc; rw [← hc]; decide)]
  simp only [Option.bind_eq_bind, Option.some_bind]
  have hws : parseWs1 (' ' :: (nm ++ ' ' :: '=' :: ' ' :: (fv ++ ';' :: post)))
      = some ([' '], nm ++ ' ' :: '=' :: ' ' :: (fv ++ ';' :: post)) := by
    have := parseWs1_canonical (w := [' '])
      (r := nm ++ ' ' :: '=' :: ' ' :: (fv ++ ';' :: post)) (by simp) (by decide)
      (fun c hc => by
        rw [head_append_of_ne hnm] at hc
        cases nm with
        | nil => exact absurd rfl hnm
        | cons n0 ntl =>
          simp at hc
          rw [← hc]
          exact not_space_of_word (hnmw n0 (by simp)))
    simpa using this
  rw [hws]
  simp only [Option.some_bind]
  rw [parseWord_canonical hnm hnmw (fun c hc => by simp at hc; rw [← hc]; decide)]
  simp only [Option.some_bind]
  rw [parseEqLit_canonical hfv hsemi hhead]
  rfl

theorem matchParamAt_canonical {name w1 w2 w3 ty nm fv post : List Char}
    (hw1 : ∀ c ∈ w1, isPySpace c = true) (hw2 : ∀ c ∈ w2, isPySpace c = true)
    (hw3 : ∀ c ∈ w3, isPySpace c = true)
    (hty : ty ≠ []) (htyw : ∀ c ∈ ty, isPyWord c = true)
    (hnm : nm ≠ []) (hnmw : ∀ c ∈ nm, isPyWord c = true)
    (hfv : fv ≠ []) (hsemi : ';' ∉ fv) (hhead : isPySpace fv.headI = false) :
    matchParamAt name ("@Parameter".toList ++ (w1 ++ '(' :: (w2 ++ '"' :: (name
        ++ '"' :: (w3 ++ ')' :: ('\n' :: ' ' :: ' ' :: ' ' :: ' ' ::
          ("private".toList ++ ' ' :: (ty ++ ' ' :: (nm ++ ' ' :: '=' :: ' ' ::
            (fv ++ ';' :: post))))))))))
      = some ⟨w1, w2, w3, ['\n', ' ', ' ', ' ', ' '], "private".toList ++ [' '],
          ty, [' '], nm, [' '], [' '], fv, post⟩ := by
  unfold matchParamAt
  rw [parseAnn_canonical hw1 hw2 hw3]
  simp only [Option.bind_eq_bind, Option.some_bind]
  have hm1 : munch isPySpace ('\n' :: ' ' :: ' ' :: ' ' :: ' ' ::
        ("private".toList ++ ' ' :: (ty ++ ' ' :: (nm ++ ' ' :: '=' :: ' ' ::
          (fv ++ ';' :: post)))))
      = (['\n', ' ', ' ', ' ', ' '],
         "private".toList ++ ' ' :: (ty ++ ' ' :: (nm ++ ' ' :: '=' :: ' ' ::
           (fv ++ ';' :: post)))) := by
    have := munch_append (w := ['\n', ' ', ' ', ' ', ' ']) (p := isPySpace) (by decide)
      (r := "private".toList ++ ' ' :: (ty ++ ' ' :: (nm ++ ' ' :: '=' :: ' ' ::
        (fv ++ ';' :: post))))
      (fun c hc => by simp at hc; rw [← hc]; decide)
    simpa using this
  rw [hm1]
  dsimp only
  rw [if_pos (by decide)]
  rw [show ("private".toList ++ ' ' :: (ty ++ ' ' :: (nm ++ ' ' :: '=' :: ' ' ::
      (fv ++ ';' :: post))) : List Char)
      = "private".toList ++ (' ' :: (ty ++ ' ' :: (nm ++ ' ' :: '=' :: ' ' ::
        (fv ++ ';' :: post)))) by simp]
  rw [expectLit_append]
  simp only [Option.bind_eq_bind, Option.some_bind]
  have hm2 : munch isPySpace (' ' :: (ty ++ ' ' :: (nm ++ ' ' :: '=' :: ' ' ::
        (fv ++ ';' :: post))))
      = ([' '], ty ++ ' ' :: (nm ++ ' ' :: '=' :: ' ' :: (fv ++ ';' :: post))) := by
    have := munch_append (w := [' ']) (p := isPySpace) (by decide)
      (r := ty ++ ' ' :: (nm ++ ' ' :: '=' :: ' ' :: (fv ++ ';' :: post)))
      (fun c hc => by
        rw [head_append_of_ne hty] at hc
        cases ty with
        | nil => exact absurd rfl hty
        | cons t0 ttl =>
          simp at hc
          rw [← hc]
          exact not_space_of_word (htyw t0 (by simp)))
    simpa using this
  rw [hm2]
  dsimp only
  rw [if_neg (by simp)]
  rw [declCore_canonical hty htyw hnm hnmw hfv hsemi hhead]
  rfl

/-- No match of the `@Parameter` pattern starts at any of the first `k`
positions of `s` (decidable, kernel-evaluable). -/
def noParamBelow (name s : List Char) (k : Nat) : Bool :=
  (List.range k).all fun i => (matchParamAt name (s.drop i)).isNone

theorem noParamBelow_spec {name s : List Char} {k : Nat}
    (h : noParamBelow name s k = true) : ∀ i < k, matchParamAt name (s.drop i) = none := by
  intro i hi
  unfold noParamBelow at h
  rw [List.all_eq_true] at h
  have := h i (List.mem_range.mpr hi)
  simpa [Option.isNone_iff_eq_none] using this

theorem findParam_prefix {name : List Char} : ∀ (pre : List Char) {tail : List Char}
    {m : ParamMatch},
    (∀ i < pre.length, matchParamAt name ((pre ++ tail).drop i) = none) →
    matchParamAt name tail = some m →
    findParam name (pre ++ tail) = some (pre, m) := by
  intro pre
  induction pre with
  | nil =>
    intro tail m _ hm
    rw [List.nil_append]
    cases tail with
    | nil =>
      unfold findParam
      simp [hm]
    | cons c t =>
      unfold findParam
      simp [hm]
  | cons c pre' ih =>
    intro tail m hmiss hm
    have h0 : matchParamAt name (c :: (pre' ++ tail)) = none := by
      have := hmiss 0 (by simp)
      simpa using this
    show findParam name (c :: (pre' ++ tail)) = some (c :: pre', m)
    unfold findParam
    rw [h0]
    have hrec := @ih tail m
      (fun i hi => by
        have := hmiss (i + 1) (by simpa using Nat.succ_lt_succ hi)
        simpa using this) hm
    rw [hrec]
    rfl

end JavaCodeModifier

deriving instance DecidableEq for Except

/-! ## Claims about the Source Parameter Injector -/

namespace JavaCodeModifier

theorem modify_parameters_singleton (content name : List Char) (v : PyVal) :
    modify_parameters content [(name, v)] =
      (_replace_parameter content name v).bind fun a => _replace_variable a name v := by
  unfold modify_parameters
  simp only [List.foldlM_cons, List.foldlM_nil, bind_pure]
  rfl

end JavaCodeModifier

/-! ## Re-parse lemmas for the bare-variable pattern

After `_replace_parameter` the declaration reads
`private <ty> <nm> = <fv>;`.  When the variable token is the parameter
name itself, the bare-variable pass re-matches this declaration and
rewrites it to the identical text.  These lemmas prove that. -/

namespace JavaCodeModifier

/-- The text from the type token onward in a normalized declaration. -/
def varTextTail (ty name fv post : List Char) : List Char :=
  ty ++ ' ' :: (name ++ ' ' :: '=' :: ' ' :: (fv ++ ';' :: post))

theorem varCore_canonical {name pre ty fv post : List Char}
    (hty : ty ≠ []) (htyw : ∀ c ∈ ty, isPyWord c = true)
    (hnm : name ≠ []) (hnmw : ∀ c ∈ name, isPyWord c = true)
    (hfv : fv ≠ []) (hsemi : ';' ∉ fv) (hhead : isPySpace fv.headI = false) :
    varCore name pre (varTextTail ty name fv post)
      = some ⟨pre ++ ty ++ [' '] ++ name, ty, [' '], [' '], fv, post⟩ := by
  unfold varCore varTextTail
  rw [parseWord_canonical hty htyw (fun c hc => by simp at hc; rw [← hc]; decide)]
  simp only [Option.bind_eq_bind, Option.some_bind]
  have hws : parseWs1 (' ' :: (name ++ ' ' :: '=' :: ' ' :: (fv ++ ';' :: post)))
      = some ([' '], name ++ ' ' :: '=' :: ' ' :: (fv ++ ';' :: post)) := by
    have := parseWs1_canonical (w := [' '])
      (r := name ++ ' ' :: '=' :: ' ' :: (fv ++ ';' :: post)) (by simp) (by decide)
      (fun c hc => by
        rw [head_append_of_ne hnm] at hc
        cases name with
        | nil => exact absurd rfl hnm
        | cons n0 ntl =>
          simp at hc
          rw [← hc]
          exact not_space_of_word (hnmw n0 (by simp)))
    simpa using this
  rw [hws]
  simp only [Option.some_bind]
  rw [show (name ++ ' ' :: '=' :: ' ' :: (fv ++ ';' :: post) : List Char)
      = name ++ (' ' :: '=' :: ' ' :: (fv ++ ';' :: post)) by simp]
  rw [expectLit_append]
  simp only [Option.some_bind]
  rw [parseEqLit_canonical hfv hsemi hhead]
  rfl

theorem varFinals_skip {name pre s : List Char}
    (hfin : expectLit "final".toList s = none) :
    varFinals name pre s = varCore name pre s := by
  unfold varFinals
  rw [hfin]

theorem varStatics_skip {name pre s : List Char}
    (hstat : expectLit "static".toList s = none)
    (hfin : expectLit "final".toList s = none) :
    varStatics name pre s = varCore name pre s := by
  unfold varStatics
  rw [hstat, varFinals_skip hfin]

theorem matchVarAt_canonical {name ty fv post : List Char}
    (hty : ty ≠ []) (htyw : ∀ c ∈ ty, isPyWord c = true)
    (hnm : name ≠ []) (hnmw : ∀ c ∈ name, isPyWord c = true)
    (hfv : fv ≠ []) (hsemi : ';' ∉ fv) (hhead : isPySpace fv.headI = false)
    (hstat : expectLit "static".toList (varTextTail ty name fv post) = none)
    (hfin : expectLit "final".toList (varTextTail ty name fv post) = none) :
    matchVarAt name ("private".toList ++ ' ' :: varTextTail ty name fv post)
      = some ⟨"private".toList ++ [' '] ++ ty ++ [' '] ++ name, ty, [' '], [' '], fv, post⟩ := by
  unfold matchVarAt tryMod
  rw [expectLit_append]
  dsimp only
  have hm0 : munch isPySpace (' ' :: varTextTail ty name fv post)
      = ([' '], varTextTail ty name fv post) := by
    have := munch_append (w := [' ']) (p := isPySpace) (by decide)
      (r := varTextTail ty name fv post)
      (fun c hc => by
        unfold varTextTail at hc
        rw [head_append_of_ne hty] at hc
        cases ty with
        | nil => exact absurd rfl hty
        | cons t0 ttl =>
          simp at hc
          rw [← hc]
          exact not_space_of_word (htyw t0 (by simp)))
    simpa using this
  rw [hm0]
  dsimp only
  rw [varStatics_skip hstat hfin,
    varCore_canonical hty htyw hnm hnmw hfv hsemi hhead]
  rfl

/-- No match of the bare-variable pattern starts at any of the first `k`
positions of `s`. -/
def noVarBelow (name s : List Char) (k : Nat) : Bool :=
  (List.range k).all fun i => (matchVarAt name (s.drop i)).isNone

theorem noVarBelow_spec {name s : List Char} {k : Nat}
    (h : noVarBelow name s k = true) : ∀ i < k, matchVarAt name (s.drop i) = none := by
  intro i hi
  unfold noVarBelow at h
  rw [List.all_eq_true] at h
  have := h i (List.mem_range.mpr hi)
  simpa [Option.isNone_iff_eq_none] using this

theorem findVar_prefix {name : List Char} : ∀ (pre : List Char) {tail : List Char}
    {m : VarMatch},
    (∀ i < pre.length, matchVarAt name ((pre ++ tail).drop i) = none) →
    matchVarAt name tail = some m →
    findVar name (pre ++ tail) = some (pre, m) := by
  intro pre
  induction pre with
  | nil =>
    intro tail m _ hm
    rw [List.nil_append]
    cases tail with
    | nil =>
      unfold findVar
      simp [hm]
    | cons c t =>
      unfold findVar
      simp [hm]
  | cons c pre' ih =>
    intro tail m hmiss hm
    have h0 : matchVarAt name (c :: (pre' ++ tail)) = none := by
      have := hmiss 0 (by simp)
      simpa using this
    show findVar name (c :: (pre' ++ tail)) = some (c :: pre', m)
    unfold findVar
    rw [h0]
    have hrec := @ih tail m
      (fun i hi => by
        have := hmiss (i + 1) (by simpa using Nat.succ_lt_succ hi)
        simpa using this) hm
    rw [hrec]
    rfl

/-- The bare-variable pass is the identity on a text whose only
(leftmost) match is a normalized declaration already carrying the
formatted value. -/
theorem replace_variable_canonical
    {name ty fv pre2 post t1 : List Char} {v : PyVal}
    (hty : ty ≠ []) (htyw : ∀ c ∈ ty, isPyWord c = true)
    (hnm : name ≠ []) (hnmw : ∀ c ∈ name, isPyWord c = true)
    (hfv : fv ≠ []) (hsemi : ';' ∉ fv) (hhead : isPySpace fv.headI = false)
    (hstat : expectLit "static".toList (varTextTail ty name fv post) = none)
    (hfin : expectLit "final".toList (varTextTail ty name fv post) = none)
    (hfmt : _format_value v ty = .ok fv)
    (ht1 : t1 = pre2 ++ ("private".toList ++ ' ' :: varTextTail ty name fv post))
    (hEarly : noVarBelow name t1 pre2.length = true) :
    _replace_variable t1 name v = .ok t1 := by
  have hfind : findVar name t1
      = some (pre2, ⟨"private".toList ++ [' '] ++ ty ++ [' '] ++ name, ty, [' '], [' '], fv, post⟩) := by
    rw [ht1]
    refine findVar_prefix pre2 ?_
      (matchVarAt_canonical hty htyw hnm hnmw hfv hsemi hhead hstat hfin)
    intro i hi
    have := noVarBelow_spec hEarly i hi
    rw [ht1] at this
    exact this
  unfold _replace_variable
  rw [hfind]
  dsimp only
  rw [hfmt]
  show Except.ok _ = _
  rw [ht1]
  unfold varTextTail
  simp

/-- `_replace_parameter` splices the normalized declaration into the span
found by the annotated-field pattern. -/
theorem replace_parameter_splice {content name pre fv t1 : List Char} {v : PyVal}
    {m : ParamMatch}
    (hfind : findParam name content = some (pre, m))
    (hfmt : _format_value v m.ty = .ok fv)
    (ht1 : t1 = pre ++ annText name m ++ normDecl m.ty m.nm fv ++ m.rest) :
    _replace_parameter content name v = .ok t1 := by
  unfold _replace_parameter
  rw [hfind]
  dsimp only
  rw [hfmt]
  show Except.ok _ = _
  rw [ht1]
  unfold normDecl
  simp

end JavaCodeModifier



open JavaCodeModifier in
/-- C3: a parameter name that matches neither the annotated-field pattern
nor the bare-field pattern leaves the text unchanged through both rewrite
strategies and through `modify_parameters`, and no error is raised (the
result is `Except.ok` of the input). -/
theorem inject_noop_when_no_match
    (content name : List Char) (v : PyVal)
    (hp : findParam name content = none) (hv : findVar name content = none) :
    _replace_parameter content name v = .ok content
    ∧ _replace_variable content name v = .ok content
    ∧ modify_parameters content [(name, v)] = .ok content := by
  have h1 : _replace_parameter content name v = .ok content := by
    unfold _replace_parameter
    rw [hp]
  have h2 : _replace_variable content name v = .ok content := by
    unfold _replace_variable
    rw [hv]
  refine ⟨h1, h2, ?_⟩
  rw [modify_parameters_singleton, h1]
  show _replace_variable content name v = _
  rw [h2]

open JavaCodeModifier in
/-- Witness for C3 on a concrete text: the name `missing` matches no
declaration of `int x = 5;`, and injection returns the text unchanged. -/
theorem inject_noop_when_no_match_witness :
    findParam "missing".toList "int x = 5;".toList = none
    ∧ findVar "missing".toList "int x = 5;".toList = none
    ∧ modify_parameters "int x = 5;".toList [("missing".toList, PyVal.pyStr "b")]
        = .ok "int x = 5;".toList :=
  ⟨by decide, by decide,
   (inject_noop_when_no_match "int x = 5;".toList "missing".toList (PyVal.pyStr "b")
      (by decide) (by decide)).2.2⟩

open JavaCodeModifier in
/-- C1 counterexample: the claim predicts that only the literal changes,
everything else (modifiers, whitespace) byte-identical.  On
`@Parameter("x")\nString x = "a";` with modification `x ↦ "b"` the code
instead emits a normalized declaration `\n    private String x = "b";`,
inserting a `private` modifier and re-indenting, so the output differs
from the claim's prediction. -/
theorem inject_frame_cex :
    (findParam "x".toList "@Parameter(\"x\")\nString x = \"a\";".toList).isSome = true
    ∧ modify_parameters "@Parameter(\"x\")\nString x = \"a\";".toList
        [("x".toList, PyVal.pyStr "b")]
        = .ok "@Parameter(\"x\")\n    private String x = \"b\";".toList
    ∧ "@Parameter(\"x\")\n    private String x = \"b\";".toList
        ≠ "@Parameter(\"x\")\nString x = \"b\";".toList := by
  refine ⟨by decide, by decide, by decide⟩

open JavaCodeModifier in
/-- C1 amended: when the annotated-field pattern matches, `inject`
replaces exactly the matched span — the annotation text is preserved
verbatim and the declaration is re-emitted in the normalized form
`"\n    private <type> <name> = <formatted value>;"` (with the matched
type and variable tokens); every character outside the matched span is
unchanged, provided the subsequent bare-variable pass leaves the rewritten
text unchanged (e.g. because it re-matches the normalized declaration and
rewrites it identically). -/
theorem inject_replaces_matched_span_only
    (content name pre fv t1 : List Char) (v : PyVal) (m : ParamMatch)
    (hfind : findParam name content = some (pre, m))
    (hfmt : _format_value v m.ty = .ok fv)
    (ht1 : t1 = pre ++ annText name m ++ normDecl m.ty m.nm fv ++ m.rest)
    (hvar : _replace_variable t1 name v = .ok t1) :
    content = pre ++ paramMatched name m ++ m.rest
    ∧ modify_parameters content [(name, v)] = .ok t1 := by
  obtain ⟨hsp, _⟩ := findParam_split hfind
  refine ⟨hsp, ?_⟩
  rw [modify_parameters_singleton, replace_parameter_splice hfind hfmt ht1]
  show _replace_variable t1 name v = _
  rw [hvar]

open JavaCodeModifier in
/-- Witness for the amended C1 at the spec §8.6 scenario: the canonical
declaration `private String startDate = "2024-01-01";` annotated
`@Parameter("startDate")`, modified to `2025-06-01`. -/
theorem inject_replaces_matched_span_only_witness :
    "@Parameter(\"startDate\")\n    private String startDate = \"2024-01-01\";".toList
      = [] ++ paramMatched "startDate".toList
          ⟨[], [], [], ['\n', ' ', ' ', ' ', ' '], "private ".toList, "String".toList,
           [' '], "startDate".toList, [' '], [' '], "\"2024-01-01\"".toList, []⟩ ++ []
    ∧ modify_parameters
        "@Parameter(\"startDate\")\n    private String startDate = \"2024-01-01\";".toList
        [("startDate".toList, PyVal.pyStr "2025-06-01")]
        = .ok "@Parameter(\"startDate\")\n    private String startDate = \"2025-06-01\";".toList :=
  inject_replaces_matched_span_only
    "@Parameter(\"startDate\")\n    private String startDate = \"2024-01-01\";".toList
    "startDate".toList [] "\"2025-06-01\"".toList
    "@Parameter(\"startDate\")\n    private String startDate = \"2025-06-01\";".toList
    (PyVal.pyStr "2025-06-01")
    ⟨[], [], [], ['\n', ' ', ' ', ' ', ' '], "private ".toList, "String".toList,
     [' '], "startDate".toList, [' '], [' '], "\"2024-01-01\"".toList, []⟩
    (by decide) (by decide) (by decide) (by decide)

open JavaCodeModifier in
/-- C2 counterexample: idempotence fails when a formatted value contains a
semicolon.  The name `a` exists as a declared (annotated) binding of the
text, yet applying `inject` twice with `a ↦ "p; q"` produces a different
text than applying it once: the `[^;]+;` literal pattern stops at the
semicolon inside the injected string literal, so each pass duplicates the
tail of the literal. -/
theorem inject_idempotence_cex :
    (findParam "a".toList "@Parameter(\"a\")\n    private String a = \"x\";".toList).isSome = true
    ∧ modify_parameters "@Parameter(\"a\")\n    private String a = \"x\";".toList
        [("a".toList, PyVal.pyStr "p; q")]
        = .ok "@Parameter(\"a\")\n    private String a = \"p; q\"; q\";".toList
    ∧ modify_parameters "@Parameter(\"a\")\n    private String a = \"p; q\"; q\";".toList
        [("a".toList, PyVal.pyStr "p; q")]
        = .ok "@Parameter(\"a\")\n    private String a = \"p; q\"; q\"; q\"; q\";".toList
    ∧ ("@Parameter(\"a\")\n    private String a = \"p; q\"; q\"; q\"; q\";".toList
        ≠ "@Parameter(\"a\")\n    private String a = \"p; q\"; q\";".toList) :=
  ⟨by decide, by decide, by decide, by decide⟩

namespace JavaCodeModifier

theorem toList_indent_private :
    "    private ".toList = ' ' :: ' ' :: ' ' :: ' ' :: ("private".toList ++ [' ']) := rfl

theorem toList_eq_sp : " = ".toList = [' ', '=', ' '] := rfl

/-- The rewritten text, decomposed into the right-nested spine that the
canonical re-match lemma expects. -/
theorem norm_splice_canonical (name : List Char) (m : ParamMatch) (fv : List Char) :
    annText name m ++ normDecl m.ty m.nm fv ++ m.rest
      = "@Parameter".toList ++ (m.annW1 ++ '(' :: (m.annW2 ++ '"' :: (name
          ++ '"' :: (m.annW3 ++ ')' :: ('\n' :: ' ' :: ' ' :: ' ' :: ' ' ::
            ("private".toList ++ ' ' :: (m.ty ++ ' ' :: (m.nm ++ ' ' :: '=' :: ' ' ::
              (fv ++ ';' :: m.rest))))))))) := by
  unfold annText normDecl
  rw [toList_indent_private, toList_eq_sp]
  simp

/-- The rewritten text, decomposed at the `private` keyword as the
bare-variable canonical lemma expects. -/
theorem norm_splice_var (pre name : List Char) (m : ParamMatch) (fv : List Char) :
    pre ++ annText name m ++ normDecl m.ty m.nm fv ++ m.rest
      = (pre ++ annText name m ++ ['\n', ' ', ' ', ' ', ' '])
        ++ ("private".toList ++ ' ' :: varTextTail m.ty m.nm fv m.rest) := by
  unfold normDecl varTextTail
  rw [toList_indent_private, toList_eq_sp]
  simp

end JavaCodeModifier

open JavaCodeModifier in
/-- C2 amended: `inject(inject(text, m), m) = inject(text, m)` holds for a
single-binding modification whose declaration is found by the
annotated-field pattern, provided the formatted value is nonempty,
contains no semicolon and does not start with whitespace, the annotated
variable token is the parameter name, the type token does not begin with a
`static` or `final` keyword, and the rewrite introduces no
annotated-pattern or bare-variable-pattern match before the rewritten
declaration.  Under these conditions both passes of the second `inject`
re-match exactly the normalized declaration and rewrite it identically.
The counterexample shows the restriction on semicolons is necessary. -/
theorem inject_idempotent_amended
    (content name pre fv t1 : List Char) (v : PyVal) (m : ParamMatch)
    (hfind : findParam name content = some (pre, m))
    (hfmt : _format_value v m.ty = .ok fv)
    (hfv : fv ≠ []) (hsemi : ';' ∉ fv) (hhead : isPySpace fv.headI = false)
    (hname : m.nm = name)
    (hstat : expectLit "static".toList (varTextTail m.ty name fv m.rest) = none)
    (hfin : expectLit "final".toList (varTextTail m.ty name fv m.rest) = none)
    (ht1 : t1 = pre ++ annText name m ++ normDecl m.ty m.nm fv ++ m.rest)
    (hEarly : noParamBelow name t1 pre.length = true)
    (hEarlyVar : noVarBelow name t1
        (pre ++ annText name m ++ ['\n', ' ', ' ', ' ', ' ']).length = true) :
    modify_parameters content [(name, v)] = .ok t1
    ∧ modify_parameters t1 [(name, v)] = .ok t1 := by
  obtain ⟨hsp, hw1, hw2, hw3, hwnl, hnl, hty, htyw, hnm, hnmw, hlitne, hlitnot⟩ :=
    findParam_split hfind
  have hvar : _replace_variable t1 name v = .ok t1 := by
    have ht1v : t1 = (pre ++ annText name m ++ ['\n', ' ', ' ', ' ', ' '])
        ++ ("private".toList ++ ' ' :: varTextTail m.ty name fv m.rest) := by
      rw [ht1, norm_splice_var, hname]
    exact replace_variable_canonical hty htyw (hname ▸ hnm) (hname ▸ hnmw)
      hfv hsemi hhead hstat hfin hfmt ht1v hEarlyVar
  have hfirst : modify_parameters content [(name, v)] = .ok t1 := by
    rw [modify_parameters_singleton, replace_parameter_splice hfind hfmt ht1]
    show _replace_variable t1 name v = _
    rw [hvar]
  refine ⟨hfirst, ?_⟩
  -- second round: the parameter pattern finds the normalized declaration again
  have hm2 : matchParamAt name (annText name m ++ normDecl m.ty m.nm fv ++ m.rest)
      = some ⟨m.annW1, m.annW2, m.annW3, ['\n', ' ', ' ', ' ', ' '],
          "private".toList ++ [' '], m.ty, [' '], m.nm, [' '], [' '], fv, m.rest⟩ := by
    rw [norm_splice_canonical]
    exact matchParamAt_canonical hw1 hw2 hw3 hty htyw hnm hnmw hfv hsemi hhead
  have ht1' : t1 = pre ++ (annText name m ++ normDecl m.ty m.nm fv ++ m.rest) := by
    rw [ht1]; simp
  have hfind2 : findParam name t1
      = some (pre, ⟨m.annW1, m.annW2, m.annW3, ['\n', ' ', ' ', ' ', ' '],
          "private".toList ++ [' '], m.ty, [' '], m.nm, [' '], [' '], fv, m.rest⟩) := by
    rw [ht1']
    refine findParam_prefix pre ?_ hm2
    intro i hi
    have := noParamBelow_spec hEarly i hi
    rw [ht1'] at this
    exact this
  have hrp2 : _replace_parameter t1 name v = .ok t1 := by
    unfold _replace_parameter
    rw [hfind2]
    dsimp only
    rw [hfmt]
    show Except.ok _ = _
    rw [ht1']
    unfold annText normDecl
    rw [toList_indent_private, toList_eq_sp]
    simp
  rw [modify_parameters_singleton, hrp2]
  show _replace_variable t1 name v = _
  rw [hvar]

open JavaCodeModifier in
/-- Witness for the amended C2 at the spec §8.6 scenario declaration. -/
theorem inject_idempotent_amended_witness :
    modify_parameters
      "@Parameter(\"startDate\")\n    private String startDate = \"2024-01-01\";".toList
      [("startDate".toList, PyVal.pyStr "2025-06-01")]
      = .ok "@Parameter(\"startDate\")\n    private String startDate = \"2025-06-01\";".toList
    ∧ modify_parameters
      "@Parameter(\"startDate\")\n    private String startDate = \"2025-06-01\";".toList
      [("startDate".toList, PyVal.pyStr "2025-06-01")]
      = .ok "@Parameter(\"startDate\")\n    private String startDate = \"2025-06-01\";".toList :=
  inject_idempotent_amended
    "@Parameter(\"startDate\")\n    private String startDate = \"2024-01-01\";".toList
    "startDate".toList [] "\"2025-06-01\"".toList
    "@Parameter(\"startDate\")\n    private String startDate = \"2025-06-01\";".toList
    (PyVal.pyStr "2025-06-01")
    ⟨[], [], [], ['\n', ' ', ' ', ' ', ' '], "private ".toList, "String".toList,
     [' '], "startDate".toList, [' '], [' '], "\"2024-01-01\"".toList, []⟩
    (by decide) (by decide) (by decide) (by decide) (by decide) (by decide)
    (by decide) (by decide) (by decide) (by decide) (by decide)

open JavaCodeModifier in
/-- C10: for every declared type tag (recognized or not), formatting the
value `None` produces the literal `null` — the `None` check precedes all
type dispatch — and consequently injection with a `None` value rewrites the
matched binding's literal to `null` (shown on a boolean-typed binding,
where `null` overrides the `true`/`false` formatting). -/
theorem format_value_none_yields_null :
    (∀ java_type : List Char,
      _format_value PyVal.pyNone java_type = .ok "null".toList)
    ∧ modify_parameters
        "@Parameter(\"flag\")\n    private Boolean flag = true;".toList
        [("flag".toList, PyVal.pyNone)]
        = .ok "@Parameter(\"flag\")\n    private Boolean flag = null;".toList := by
  refine ⟨?_, by decide⟩
  intro java_type
  unfold _format_value
  rw [if_pos rfl]

/-! ## ConfigSearcher: data model

Files are supplied as explicit lists (the oracle for the recursive
directory enumeration of `ConfigSearcher`, in traversal order; missing
directories simply contribute no files).  `yaml.safe_load` is an external
library call and is modelled as an oracle outcome carried with each file.
Scores are `Rat` (the source only ever adds the float literals 1.0, 2.0,
3.0, which are exact in IEEE doubles). -/

/-- A metadata value: a string, a list of strings (accumulated repeated
keys, or a YAML list), or a non-string non-list non-iterable scalar
(e.g. a YAML number) on which `.lower()` or iteration raises. -/
inductive MVal where
  | mstr (s : String)
  | mlist (vs : List String)
  | mother (n : Int)
deriving DecidableEq

/-- Python dict lookup (`metadata.get(k)`), modelled over an insertion-
ordered association list with unique keys. -/
def dictFind (d : List (String × MVal)) (k : String) : Option MVal :=
  (d.find? (fun p => p.1 = k)).map (·.2)

/-- Python dict assignment `d[k] = v`: updates in place, or appends. -/
def dictSet (d : List (String × MVal)) (k : String) (v : MVal) : List (String × MVal) :=
  if (d.find? (fun p => p.1 = k)).isSome then
    d.map (fun p => if p.1 = k then (k, v) else p)
  else d ++ [(k, v)]

/-- Value state during directive/annotation accumulation: plain string or
accumulated list (`isinstance(metadata[key], list)` dichotomy). -/
inductive DirVal where
  | dstr (s : String)
  | dlist (vs : List String)
deriving DecidableEq

/-- The repeated-key accumulation loop shared by `_parse_yml_file` and
`_parse_java_file`: first occurrence stores the string, a second turns it
into a two-element list, later ones append. -/
def accumulateMeta (pairs : List (String × String)) : List (String × DirVal) :=
  pairs.foldl
    (fun md kv =>
      match (md.find? (fun p => p.1 = kv.1)).map (·.2) with
      | none => md ++ [(kv.1, .dstr kv.2)]
      | some (.dstr old) =>
          md.map (fun p => if p.1 = kv.1 then (kv.1, .dlist [old, kv.2]) else p)
      | some (.dlist xs) =>
          md.map (fun p => if p.1 = kv.1 then (kv.1, .dlist (xs ++ [kv.2])) else p))
    []

/-- Coerce the accumulation result into general metadata values. -/
def mvalOfDir (md : List (String × DirVal)) : List (String × MVal) :=
  md.map (fun p => (p.1, match p.2 with | .dstr s => MVal.mstr s | .dlist xs => MVal.mlist xs))

/-- Non-overlapping leftmost scan (`Pattern.finditer`), fueled: try the
matcher at every position; on a match, emit it and resume after the
matched span.  The matcher returns the remaining suffix; the scan resumes
at `drop (length consumed)` (all matchers below consume at least one
character, so `max _ 1` only protects progress).  Every step shortens the
text, so fuel `s.length` computes the exact scan. -/
def scanAllF (f : List Char → Option (α × List Char)) : Nat → List Char → List α
  | 0, _ => []
  | _ + 1, [] => []
  | fuel + 1, c :: t =>
    match f (c :: t) with
    | some (a, rest) =>
        a :: scanAllF f fuel ((c :: t).drop (max ((c :: t).length - rest.length) 1))
    | none => scanAllF f fuel t

/-- `Pattern.finditer` over the whole text. -/
def scanAll (f : List Char → Option (α × List Char)) (s : List Char) : List α :=
  scanAllF f s.length s

/-- Leftmost search (`Pattern.search`): first position where the matcher
succeeds. -/
def findFirst (f : List Char → Option α) : List Char → Option α
  | [] => f []
  | c :: t =>
    match f (c :: t) with
    | some a => some a
    | none => findFirst f t

/-! ## ConfigSearcher: the YML directive scanner

`YML_METADATA_PATTERN = #\s*@(\w+):\s*(.+?)(?:\n|$)`.  `\s*` may cross
newlines; `.` does not match a newline; the lazy `(.+?)` therefore runs to
the next newline or the end of input.  When the text after the colon is
whitespace to the end of input, the greedy `\s*` backtracks to leave the
last non-newline whitespace character for `(.+?)`. -/

namespace ConfigSearcher

/-- One match of the directive pattern at the head of `s`:
(raw key, raw value, rest after the match). -/
def matchDirectiveAt (s : List Char) : Option ((List Char × List Char) × List Char) :=
  (expectCh '#' s).bind fun s1 =>
  let (_, s2) := munch isPySpace s1
  (expectCh '@' s2).bind fun s3 =>
  (JavaCodeModifier.parseWord s3).bind fun kw =>
  (expectCh ':' kw.2).bind fun s5 =>
  let (w, r) := munch isPySpace s5
  match r with
  | c :: r2 =>
    let v := (c :: r2).takeWhile (fun d => d ≠ '\n')
    match (c :: r2).dropWhile (fun d => d ≠ '\n') with
    | '\n' :: r3 => some ((kw.1, v), r3)
    | rest => some ((kw.1, v), rest)
  | [] =>
    match w.reverse.dropWhile (fun d => d = '\n') with
    | [] => none
    | c :: _ => some ((kw.1, [c]), (w.reverse.takeWhile (fun d => d = '\n')).drop 1)

/-- All directive matches, with Python's `group(1).lower()` /
`group(2).strip()` applied. -/
def directivePairs (content : List Char) : List (String × String) :=
  (scanAll matchDirectiveAt content).map
    (fun kv => (String.mk (pyLower kv.1), String.mk (pyStrip kv.2)))

/-! ## ConfigSearcher: the SQL block pattern

`SQL_BLOCK_PATTERN = sql:\s*[|>]?\s*\n((?:\s{2,}.+\n?)+)`.  The captured
group is one or more runs of (two-or-more whitespace characters, at least
one non-newline character, an optional newline).  The optional `[|>]` is
tried first; the greedy `\s*` before `\n` backtracks from the last newline
of the whitespace run towards the first until the group matches. -/

/-- One iteration `\s{2,}.+\n?` of the SQL block body, greedy; at end of
input the greedy `\s{2,}` gives back its trailing characters down to the
last non-newline one so that `.+` is nonempty. -/
def sqlIter (s : List Char) : Option (List Char × List Char) :=
  let (u, r1) := munch isPySpace s
  if u.length < 2 then none
  else
    match r1 with
    | [] =>
      let core := u.reverse.dropWhile (fun d => d = '\n')
      let tailNl := u.reverse.takeWhile (fun d => d = '\n')
      if 3 ≤ core.length then some (core.reverse ++ tailNl.take 1, tailNl.drop 1)
      else none
    | c :: r2 =>
      let v := (c :: r2).takeWhile (fun d => d ≠ '\n')
      match (c :: r2).dropWhile (fun d => d ≠ '\n') with
      | '\n' :: r3 => some (u ++ v ++ ['\n'], r3)
      | rest => some (u ++ v, rest)

/-- The repetition `(?:\s{2,}.+\n?)+`, greedy.  `fuel` only bounds the
number of iterations: each iteration consumes at least two characters, so
any fuel of at least `s.length` computes the exact fixpoint. -/
def sqlGroup (fuel : Nat) (s : List Char) : Option (List Char × List Char) :=
  match fuel with
  | 0 => none
  | fuel + 1 =>
    match sqlIter s with
    | none => none
    | some (it, rest) =>
      match sqlGroup fuel rest with
      | some (g, rest2) => some (it ++ g, rest2)
      | none => some (it, rest)

/-- The suffixes following each `'\n'` of a list, first-to-last. -/
def nlSuffixes : List Char → List (List Char)
  | [] => []
  | c :: t => (if c = '\n' then [t] else []) ++ nlSuffixes t

/-- First success of `f` along a list. -/
def firstSome (f : α → Option β) : List α → Option β
  | [] => none
  | a :: l =>
    match f a with
    | some b => some b
    | none => firstSome f l

/-- Match of the SQL block pattern at the head of `s`, returning the
captured group.  Backtracking order: the pipe (if present) is consumed
first and the newline chosen from the following whitespace run, last to
first; only then is the pipe skipped and the newline chosen from the run
before it. -/
def matchSqlAt (s : List Char) : Option (List Char) :=
  (expectLit "sql:".toList s).bind fun s1 =>
  let (w1, r1) := munch isPySpace s1
  let viaRun (w rest : List Char) : Option (List Char) :=
    firstSome (fun suff => (sqlGroup (suff ++ rest).length (suff ++ rest)).map Prod.fst)
      (nlSuffixes w).reverse
  match r1 with
  | '|' :: r2 =>
    let (w2, r3) := munch isPySpace r2
    match viaRun w2 r3 with
    | some g => some g
    | none => viaRun w1 ('|' :: r2)
  | '>' :: r2 =>
    let (w2, r3) := munch isPySpace r2
    match viaRun w2 r3 with
    | some g => some g
    | none => viaRun w1 ('>' :: r2)
  | _ => viaRun w1 r1

/-- `SQL_BLOCK_PATTERN.search(content)` followed by `.group(1).strip()`. -/
def findSqlQuery (content : List Char) : Option String :=
  (findFirst matchSqlAt content).map (fun g => String.mk (pyStrip g))

end ConfigSearcher

/-! ## ConfigSearcher: Java file scanners -/

namespace ConfigSearcher

/-- One match of `JAVA_METADATA_PATTERN =
`@Meta(?:data)?\s*\(\s*(\w+)\s*=\s*"([^"]+)"\s*\)`` at the head of `s`:
((key, value), rest).  The optional `data` is tried first and given up on
downstream failure. -/
def matchJavaMetaAt (s : List Char) : Option ((List Char × List Char) × List Char) :=
  (expectLit "@Meta".toList s).bind fun s1 =>
  let core (t : List Char) : Option ((List Char × List Char) × List Char) :=
    let (_, t1) := munch isPySpace t
    (expectCh '(' t1).bind fun t2 =>
    let (_, t3) := munch isPySpace t2
    (JavaCodeModifier.parseWord t3).bind fun kw =>
    let (_, t5) := munch isPySpace kw.2
    (expectCh '=' t5).bind fun t6 =>
    let (_, t7) := munch isPySpace t6
    (expectCh '"' t7).bind fun t8 =>
    let v := t8.takeWhile (fun d => d ≠ '"')
    if v.isEmpty then none
    else
      match t8.dropWhile (fun d => d ≠ '"') with
      | '"' :: t9 =>
        let (_, t10) := munch isPySpace t9
        (expectCh ')' t10).map fun t11 => ((kw.1, v), t11)
      | _ => none
  match expectLit "data".toList s1 with
  | some s2 =>
    match core s2 with
    | some res => some res
    | none => core s1
  | none => core s1

/-- `package\s+([\w.]+);` at the head of `s`. -/
def matchPackageAt (s : List Char) : Option String :=
  (expectLit "package".toList s).bind fun s1 =>
  (JavaCodeModifier.parseWs1 s1).bind fun ws =>
  let (p, r) := munch (fun c => isPyWord c || c = '.') ws.2
  if p.isEmpty then none
  else (expectCh ';' r).map fun _ => String.mk p

/-- `(?:public\s+)?class\s+(\w+)` at the head of `s`. -/
def matchClassAt (s : List Char) : Option String :=
  let core (t : List Char) : Option String :=
    (expectLit "class".toList t).bind fun t1 =>
    (JavaCodeModifier.parseWs1 t1).bind fun ws =>
    (JavaCodeModifier.parseWord ws.2).map fun w => String.mk w.1
  match expectLit "public".toList s with
  | some s1 =>
    match JavaCodeModifier.parseWs1 s1 with
    | some ws =>
      match core ws.2 with
      | some res => some res
      | none => core s
    | none => core s
  | none => core s

/-- `(?:public\s+)?void\s+(\w+)\s*\(` at the head of `s`: (name, rest
after the opening parenthesis). -/
def matchVoidAt (s : List Char) : Option (String × List Char) :=
  let core (t : List Char) : Option (String × List Char) :=
    (expectLit "void".toList t).bind fun t1 =>
    (JavaCodeModifier.parseWs1 t1).bind fun ws =>
    (JavaCodeModifier.parseWord ws.2).bind fun w =>
    let (_, t2) := munch isPySpace w.2
    (expectCh '(' t2).map fun t3 => (String.mk w.1, t3)
  match expectLit "public".toList s with
  | some s1 =>
    match JavaCodeModifier.parseWs1 s1 with
    | some ws =>
      match core ws.2 with
      | some res => some res
      | none => core s
    | none => core s
  | none => core s

/-- Leftmost `(?:public\s+)?void\s+(\w+)\s*\(` (the lazy `.*?` of
`JAVA_METHOD_PATTERN`, `re.DOTALL`, expands to the nearest such
declaration). -/
def findVoid : List Char → Option (String × List Char)
  | [] => matchVoidAt []
  | c :: t =>
    match matchVoidAt (c :: t) with
    | some res => some res
    | none => findVoid t

/-- One match of `JAVA_METHOD_PATTERN = @Test.*?(?:public\s+)?void\s+(\w+)\s*\(`
at the head of `s`: (method name, rest after the match). -/
def matchTestMethodAt (s : List Char) : Option (String × List Char) :=
  (expectLit "@Test".toList s).bind fun s1 => findVoid s1

end ConfigSearcher

/-! ## ConfigSearcher: parsing, scoring, search -/

/-- `SearchCriteria` (config_searcher.py): all fields optional.  `None`
and the empty string are both falsy for the `if criteria.x:` guards. -/
structure SearchCriteria where
  keywords : List String := []
  report_type : Option String := none
  domain : Option String := none
  capability : Option String := none
  tags : List String := []
deriving DecidableEq

/-- `ConfigMatch` (config_searcher.py). -/
structure ConfigMatch where
  file_path : String
  file_type : String
  metadata : List (String × MVal)
  sql_query : Option String := none
  java_class : Option String := none
  java_method : Option String := none
  relevance_score : Int := 0
  content : String := ""
deriving DecidableEq

/-- Outcome of `yaml_content['metadata']` when `yaml.safe_load` produced a
dict: absent, present but not itself a dict (so `.items()` raises), or a
dict of fields. -/
inductive YamlMetaField where
  | notDict (n : Int)
  | fields (fs : List (String × MVal))
deriving DecidableEq

/-- Outcome of `yaml.safe_load(content)` (external library, modelled as an
oracle carried with the file): a parse error (swallowed), a non-dict
document, or a dict with an optional `metadata` entry. -/
inductive YamlRes where
  | yerror
  | ynotdict
  | ydict (metaField : Option YamlMetaField)
deriving DecidableEq

/-- A structured-config file as enumerated under the config roots:
path, raw text, whether reading succeeds, and the YAML-parse oracle. -/
structure YmlFile where
  path : String
  content : String
  readable : Bool := true
  yamlDoc : YamlRes := .ynotdict
deriving DecidableEq

/-- A `*Test*.java` file as enumerated under the test roots. -/
structure JFile where
  path : String
  content : String
  readable : Bool := true
deriving DecidableEq

namespace ConfigSearcher

/-- `ConfigSearcher._calculate_relevance`: deterministic additive scoring;
`.lower()` on a non-string metadata value and iteration over a
non-iterable raise (propagating to the per-file exception handler). -/
def _calculate_relevance (metadata : List (String × MVal)) (content : String)
    (criteria : SearchCriteria) : Except String Int := do
  let content_lower := pyLower content.toList
  let kwScore : Int := criteria.keywords.foldl
    (fun acc keyword =>
      let keyword_lower := replaceUnderscore (pyLower keyword.toList)
      if containsSub keyword_lower content_lower
          || containsSub (pyLower keyword.toList) content_lower then
        acc + 1
      else acc)
    0
  let rtScore : Int ←
    match criteria.report_type with
    | none => pure 0
    | some rt =>
      if rt = "" then pure 0
      else
        let report_type_lower := pyLower rt.toList
        let base : Int := if containsSub report_type_lower content_lower then 2 else 0
        match (dictFind metadata "report_type").getD (.mstr "") with
        | .mstr s => pure (base + if pyLower s.toList = report_type_lower then 3 else 0)
        | _ => throw "AttributeError: lower"
  let domScore : Int ←
    match criteria.domain with
    | none => pure 0
    | some dm =>
      if dm = "" then pure 0
      else
        match (dictFind metadata "domain").getD (.mstr "") with
        | .mstr s => pure (if pyLower s.toList = pyLower dm.toList then 2 else 0)
        | _ => throw "AttributeError: lower"
  let capScore : Int ←
    match criteria.capability with
    | none => pure 0
    | some cap =>
      if cap = "" then pure 0
      else
        match (dictFind metadata "capability").getD (.mstr "") with
        | .mlist cs =>
            pure (if (cs.map (fun c => pyLower c.toList)).contains (pyLower cap.toList)
              then 2 else 0)
        | .mstr s => pure (if pyLower s.toList = pyLower cap.toList then 2 else 0)
        | .mother _ => throw "AttributeError: lower"
  let tagScore : Int ← criteria.tags.foldlM
    (fun acc tag => do
      let tag_lower := pyLower tag.toList
      match (dictFind metadata "tags").getD (.mlist []) with
      | .mstr s =>
          pure (if ([s].map (fun t => pyLower t.toList)).contains tag_lower
            then acc + 1 else acc)
      | .mlist ts =>
          pure (if (ts.map (fun t => pyLower t.toList)).contains tag_lower
            then acc + 1 else acc)
      | .mother _ => throw "TypeError: not iterable")
    0
  pure (kwScore + rtScore + domScore + capScore + tagScore)

/-- `ConfigSearcher._parse_yml_file`: directive-comment extraction, the
structural `metadata:` merge (keys lower-cased, values overriding), SQL
block capture, scoring.  Any exception (file read, non-dict `metadata`
value, scoring) is caught by the per-file handler: the file yields `none`
and is skipped. -/
def _parse_yml_file (f : YmlFile) (criteria : SearchCriteria) : Option ConfigMatch :=
  if !f.readable then none
  else
    let md0 := mvalOfDir (accumulateMeta (directivePairs f.content.toList))
    let merged : Option (List (String × MVal)) :=
      match f.yamlDoc with
      | .yerror => some md0
      | .ynotdict => some md0
      | .ydict none => some md0
      | .ydict (some (.notDict _)) => none
      | .ydict (some (.fields fs)) =>
          some (fs.foldl (fun md kv => dictSet md (String.mk (pyLower kv.1.toList)) kv.2) md0)
    match merged with
    | none => none
    | some md =>
      let sql_query := findSqlQuery f.content.toList
      match _calculate_relevance md f.content criteria with
      | .error _ => none
      | .ok score =>
          some { file_path := f.path, file_type := "yml", metadata := md,
                 sql_query := sql_query, relevance_score := score, content := f.content }

/-- `ConfigSearcher._parse_java_file`: `@Meta(data)` annotation
extraction, package, class, `@Test` method names, scoring. -/
def _parse_java_file (f : JFile) (criteria : SearchCriteria) : Option ConfigMatch :=
  if !f.readable then none
  else
    let pairs := (scanAll matchJavaMetaAt f.content.toList).map
      (fun kv => (String.mk (pyLower kv.1), String.mk (pyStrip kv.2)))
    let md0 := mvalOfDir (accumulateMeta pairs)
    let md1 :=
      match findFirst matchPackageAt f.content.toList with
      | some p => dictSet md0 "package" (.mstr p)
      | none => md0
    let java_class := findFirst matchClassAt f.content.toList
    let java_methods := scanAll matchTestMethodAt f.content.toList
    let java_method := java_methods.head?
    let md2 :=
      if java_methods.isEmpty then md1
      else dictSet md1 "test_methods" (.mlist java_methods)
    match _calculate_relevance md2 f.content criteria with
    | .error _ => none
    | .ok score =>
        some { file_path := f.path, file_type := "java", metadata := md2,
               java_class := java_class, java_method := java_method,
               relevance_score := score, content := f.content }

/-- The per-file filter of the search loops:
`if match and match.relevance_score > 0: matches.append(match)`. -/
def keepPositive (o : Option ConfigMatch) : Option ConfigMatch :=
  match o with
  | none => none
  | some m => if 0 < m.relevance_score then some m else none

/-- `ConfigSearcher._search_yml_files` over the enumerated config files. -/
def _search_yml_files (files : List YmlFile) (criteria : SearchCriteria) : List ConfigMatch :=
  files.filterMap (fun f => keepPositive (_parse_yml_file f criteria))

/-- `ConfigSearcher._search_java_files` over the enumerated test files. -/
def _search_java_files (files : List JFile) (criteria : SearchCriteria) : List ConfigMatch :=
  files.filterMap (fun f => keepPositive (_parse_java_file f criteria))

/-- Descending order by relevance score (`reverse=True`). -/
def byScoreDesc (a b : ConfigMatch) : Prop := b.relevance_score ≤ a.relevance_score

instance : DecidableRel byScoreDesc := fun a b =>
  inferInstanceAs (Decidable (b.relevance_score ≤ a.relevance_score))

instance : IsTotal ConfigMatch byScoreDesc :=
  ⟨fun a b => le_total b.relevance_score a.relevance_score⟩

instance : IsTrans ConfigMatch byScoreDesc :=
  ⟨fun _ _ _ hab hbc => le_trans hbc hab⟩

/-- `ConfigSearcher.search`: YML matches, then Java matches, sorted by
descending relevance score.  Python's `list.sort` is stable, and a stable
sort is extensionally unique, so `List.insertionSort` with the non-strict
descending order is the exact embedding. -/
def search (ymlFiles : List YmlFile) (javaFiles : List JFile)
    (criteria : SearchCriteria) : List ConfigMatch :=
  List.insertionSort byScoreDesc
    (_search_yml_files ymlFiles criteria ++ _search_java_files javaFiles criteria)

/-- `ConfigSearcher.get_all_configs`: search with empty criteria, grouped
by the `report_type` metadata value (`'unknown'` when absent); grouping
keys are raw metadata values — an accumulated list value is unhashable and
raises. -/
def get_all_configs (ymlFiles : List YmlFile) (javaFiles : List JFile) :
    Except String (List (MVal × List ConfigMatch)) :=
  (search ymlFiles javaFiles {}).foldlM
    (fun organized mtch => do
      let key : MVal ←
        match dictFind mtch.metadata "report_type" with
        | none => pure (.mstr "unknown")
        | some (.mlist _) => throw "TypeError: unhashable type: list"
        | some v => pure v
      if (organized.find? (fun p => p.1 = key)).isSome then
        pure (organized.map (fun p => if p.1 = key then (p.1, p.2 ++ [mtch]) else p))
      else
        pure (organized ++ [(key, [mtch])]))
    []

end ConfigSearcher

/-! ## Claims about the Artifact Search Engine -/

namespace ConfigSearcher

theorem keepPositive_pos {o : Option ConfigMatch} {m : ConfigMatch}
    (h : keepPositive o = some m) : 0 < m.relevance_score := by
  unfold keepPositive at h
  cases o with
  | none => simp at h
  | some m' =>
    dsimp only at h
    by_cases hp : 0 < m'.relevance_score
    · rw [if_pos hp] at h
      cases h
      exact hp
    · rw [if_neg hp] at h
      simp at h

end ConfigSearcher

open ConfigSearcher in
/-- C4: every element of a search result list has strictly positive
relevance score — a zero-scored artifact never appears, for any criteria
and any enumerated file set. -/
theorem search_scores_positive
    (ymlFiles : List YmlFile) (javaFiles : List JFile) (criteria : SearchCriteria)
    (m : ConfigMatch) (hm : m ∈ search ymlFiles javaFiles criteria) :
    0 < m.relevance_score := by
  unfold search at hm
  rw [(List.perm_insertionSort byScoreDesc _).mem_iff] at hm
  rw [List.mem_append] at hm
  cases hm with
  | inl h =>
    unfold _search_yml_files at h
    obtain ⟨f, _, hf⟩ := List.mem_filterMap.mp h
    exact keepPositive_pos hf
  | inr h =>
    unfold _search_java_files at h
    obtain ⟨f, _, hf⟩ := List.mem_filterMap.mp h
    exact keepPositive_pos hf

open ConfigSearcher in
/-- Witness for C4: the scenario file of §8.5 is a member of its search
result and indeed carries a positive score. -/
theorem search_scores_positive_witness :
    (0 : Int) <
      (ConfigMatch.mk "configs/wash.yml" "yml" [("report_type", MVal.mstr "wash_trade")]
        none none none 6 "#@report_type: wash_trade\nname: wash sale detection\n").relevance_score :=
  search_scores_positive
    [YmlFile.mk "configs/wash.yml" "#@report_type: wash_trade\nname: wash sale detection\n"
       true (.ydict none)]
    [] (SearchCriteria.mk ["wash"] (some "wash_trade") none none [])
    (ConfigMatch.mk "configs/wash.yml" "yml" [("report_type", MVal.mstr "wash_trade")]
      none none none 6 "#@report_type: wash_trade\nname: wash sale detection\n")
    (by decide)

open ConfigSearcher in
/-- C5: the search result list is sorted by non-increasing relevance
score; in particular every adjacent pair is ordered.  Tie order is
whatever the stable sort produces and is not constrained here. -/
theorem search_sorted_desc
    (ymlFiles : List YmlFile) (javaFiles : List JFile) (criteria : SearchCriteria) :
    List.Sorted byScoreDesc (search ymlFiles javaFiles criteria)
    ∧ ∀ (i j : Fin (search ymlFiles javaFiles criteria).length), i < j →
        ((search ymlFiles javaFiles criteria).get j).relevance_score
          ≤ ((search ymlFiles javaFiles criteria).get i).relevance_score := by
  have hs : List.Sorted byScoreDesc (search ymlFiles javaFiles criteria) :=
    List.sorted_insertionSort byScoreDesc _
  exact ⟨hs, fun i j hij => hs.rel_get_of_lt hij⟩

open ConfigSearcher in
/-- Witness for C5 at a concrete two-file search. -/
theorem search_sorted_desc_witness :
    List.Sorted byScoreDesc
      (search
        [YmlFile.mk "configs/wash.yml" "#@report_type: wash_trade\nname: wash sale detection\n"
           true (.ydict none)]
        [JFile.mk "tests/FooTest.java"
           "@Metadata(domain = \"trade\")\nclass FooTest\n@Test public void testWash() calls run on wash_trade data\n"
           true]
        (SearchCriteria.mk ["wash"] (some "wash_trade") none none [])) :=
  (search_sorted_desc
    [YmlFile.mk "configs/wash.yml" "#@report_type: wash_trade\nname: wash sale detection\n"
       true (.ydict none)]
    [JFile.mk "tests/FooTest.java"
       "@Metadata(domain = \"trade\")\nclass FooTest\n@Test public void testWash() calls run on wash_trade data\n"
       true]
    (SearchCriteria.mk ["wash"] (some "wash_trade") none none [])).1

open ConfigSearcher in
/-- C6: the §8.5 scenario.  A structured-config file containing the
directive line `#@report_type: wash_trade` and the word `wash` in its
body, searched with `keywords=["wash"], report_type="wash_trade"`,
extracts `report_type ↦ wash_trade` and scores exactly
1.0 (keyword) + 2.0 (report-type substring) + 3.0 (exact metadata
match) = 6.0. -/
theorem scenario_extraction_scoring :
    _parse_yml_file
      (YmlFile.mk "configs/wash.yml" "#@report_type: wash_trade\nname: wash sale detection\n"
        true (.ydict none))
      (SearchCriteria.mk ["wash"] (some "wash_trade") none none [])
    = some (ConfigMatch.mk "configs/wash.yml" "yml"
        [("report_type", MVal.mstr "wash_trade")] none none none 6
        "#@report_type: wash_trade\nname: wash sale detection\n")
    ∧ _calculate_relevance [("report_type", MVal.mstr "wash_trade")]
        "#@report_type: wash_trade\nname: wash sale detection\n"
        (SearchCriteria.mk ["wash"] (some "wash_trade") none none [])
      = .ok 6 := by
  exact ⟨by decide, by decide⟩

namespace ConfigSearcher

theorem calc_relevance_empty (md : List (String × MVal)) (content : String) :
    _calculate_relevance md content {} = .ok 0 := rfl

theorem parse_yml_empty_score {f : YmlFile} {m : ConfigMatch}
    (h : _parse_yml_file f {} = some m) : m.relevance_score = 0 := by
  unfold _parse_yml_file at h
  split at h
  · exact Option.noConfusion h
  · split at h
    all_goals dsimp only at h
    any_goals exact Option.noConfusion h
    all_goals
      split at h
      any_goals exact Option.noConfusion h
      all_goals
        rename_i score hcalc
        rw [calc_relevance_empty] at hcalc
        simp only [Except.ok.injEq] at hcalc
        subst hcalc
        simp only [Option.some.injEq] at h
        rw [← h]

theorem parse_java_empty_score {f : JFile} {m : ConfigMatch}
    (h : _parse_java_file f {} = some m) : m.relevance_score = 0 := by
  unfold _parse_java_file at h
  split at h
  · exact Option.noConfusion h
  · dsimp only at h
    split at h
    any_goals exact Option.noConfusion h
    all_goals
      rename_i score hcalc
      rw [calc_relevance_empty] at hcalc
      simp only [Except.ok.injEq] at hcalc
      subst hcalc
      simp only [Option.some.injEq] at h
      rw [← h]

end ConfigSearcher

open ConfigSearcher in
/-- C7: searching with empty criteria always yields the empty result list
(every file scores 0 and is filtered out) — and therefore
`get_all_configs`, which is implemented as `search(SearchCriteria())`,
always returns the empty grouping, even when parseable artifacts with a
`report_type` exist.  It does not bypass the filtering. -/
theorem search_empty_criteria_empty :
    (∀ (ymlFiles : List YmlFile) (javaFiles : List JFile),
      search ymlFiles javaFiles {} = [])
    ∧ get_all_configs
        [YmlFile.mk "configs/wash.yml" "#@report_type: wash_trade\nname: wash sale detection\n"
          true (.ydict none)] []
        = .ok []
    ∧ (_parse_yml_file
        (YmlFile.mk "configs/wash.yml" "#@report_type: wash_trade\nname: wash sale detection\n"
          true (.ydict none)) {}).isSome = true := by
  have hmain : ∀ (ymlFiles : List YmlFile) (javaFiles : List JFile),
      search ymlFiles javaFiles {} = [] := by
    intro ymlFiles javaFiles
    unfold search
    have hy : _search_yml_files ymlFiles {} = [] := by
      unfold _search_yml_files
      rw [List.filterMap_eq_nil]
      intro f _
      cases hp : _parse_yml_file f ({} : SearchCriteria) with
      | none => simp [keepPositive, hp]
      | some m =>
        have := parse_yml_empty_score hp
        simp [keepPositive, hp, this]
    have hj : _search_java_files javaFiles {} = [] := by
      unfold _search_java_files
      rw [List.filterMap_eq_nil]
      intro f _
      cases hp : _parse_java_file f ({} : SearchCriteria) with
      | none => simp [keepPositive, hp]
      | some m =>
        have := parse_java_empty_score hp
        simp [keepPositive, hp, this]
    rw [hy, hj]
    rfl
  refine ⟨hmain, ?_, by decide⟩
  unfold get_all_configs
  rw [hmain]
  rfl

/-! ## JavaExecutor: execution pipeline

The external process, the wall clock and the output-directory tree are
oracle inputs: `ProcOutcome` is what `subprocess.run` did (completion with
an exit code and captured streams, or `TimeoutExpired`), `elapsed_ms` is
the wall-clock time `execute_test` measures around the run, and the
output files are the entries `Path.glob` can see.  Modification times are
integers (only their ordering matters).  Command-line assembly feeds only
the external process and does not influence any result field, so it is
not modelled. -/

namespace JavaExecutor

/-- An entry of the output directory tree: full path, final name
component (the part glob patterns are matched against), mtime. -/
structure OutFile where
  path : String
  name : String
  mtime : Int
deriving DecidableEq

/-- `report_patterns = ['*.html', '*.pdf', '*.csv', '*.xlsx', '*report*']`. -/
def report_patterns : List String := ["*.html", "*.pdf", "*.csv", "*.xlsx", "*report*"]

/-- String suffix test. -/
def strEndsWith (s suff : String) : Bool :=
  (expectLit suff.toList.reverse s.toList.reverse).isSome

/-- pathlib glob matching for the five fixed patterns, against the final
name component (`**/` admits any directory prefix; `*` matches any
character sequence within a component). -/
def globMatch1 (pattern : String) (name : String) : Bool :=
  if pattern = "*.html" then strEndsWith name ".html"
  else if pattern = "*.pdf" then strEndsWith name ".pdf"
  else if pattern = "*.csv" then strEndsWith name ".csv"
  else if pattern = "*.xlsx" then strEndsWith name ".xlsx"
  else if pattern = "*report*" then containsSub "report".toList name.toList
  else false

/-- Descending order by modification time (`reverse=True`). -/
def byMtimeDesc (a b : OutFile) : Prop := b.mtime ≤ a.mtime

instance : DecidableRel byMtimeDesc := fun a b =>
  inferInstanceAs (Decidable (b.mtime ≤ a.mtime))

instance : IsTotal OutFile byMtimeDesc := ⟨fun a b => le_total b.mtime a.mtime⟩

instance : IsTrans OutFile byMtimeDesc := ⟨fun _ _ _ hab hbc => le_trans hbc hab⟩

/-- The pattern loop of `_find_report`: for each pattern in order, glob;
if anything matched, sort by mtime descending (stable) and return the
first element's path; otherwise try the next pattern. -/
def findReportGo (files : List OutFile) : List String → Option String
  | [] => none
  | p :: ps =>
    match List.insertionSort byMtimeDesc (files.filter (fun f => globMatch1 p f.name)) with
    | r :: _ => some r.path
    | [] => findReportGo files ps

/-- `JavaExecutor._find_report`. -/
def _find_report (files : List OutFile) : Option String :=
  findReportGo files report_patterns

/-- The first file attaining the maximal mtime of a list (what a stable
descending sort puts first). -/
def firstMaxByMtime : List OutFile → Option OutFile
  | [] => none
  | f :: fs =>
    match firstMaxByMtime fs with
    | none => some f
    | some g => some (if f.mtime < g.mtime then g else f)

/-- Reference form of the amended C8: first pattern with a match wins;
among its matches, the most recently modified (earliest on ties). -/
def find_report_first_pattern (files : List OutFile) : List String → Option String
  | [] => none
  | p :: ps =>
    match firstMaxByMtime (files.filter (fun f => globMatch1 p f.name)) with
    | some g => some g.path
    | none => find_report_first_pattern files ps

/-- Modelled from the claim's wording (C8): the most recently modified
file among the matches of all patterns taken together. -/
def find_report_claimed (files : List OutFile) : Option String :=
  (firstMaxByMtime
    (files.filter (fun f => report_patterns.any (fun p => globMatch1 p f.name)))).map
    (·.path)

theorem head_insertionSort_mtime (l : List OutFile) :
    (List.insertionSort byMtimeDesc l).head? = firstMaxByMtime l := by
  induction l with
  | nil => rfl
  | cons f fs ih =>
    show (List.orderedInsert byMtimeDesc f (List.insertionSort byMtimeDesc fs)).head?
        = firstMaxByMtime (f :: fs)
    cases hs : List.insertionSort byMtimeDesc fs with
    | nil =>
      rw [hs] at ih
      simp only [List.orderedInsert, List.head?]
      unfold firstMaxByMtime
      rw [← ih]
      rfl
    | cons x t =>
      rw [hs] at ih
      unfold firstMaxByMtime
      rw [← ih]
      simp only [List.head?_cons, List.orderedInsert]
      by_cases hle : byMtimeDesc f x
      · rw [if_pos hle]
        have : ¬f.mtime < x.mtime := not_lt.mpr hle
        rw [if_neg this]
        rfl
      · rw [if_neg hle]
        have : f.mtime < x.mtime := lt_of_not_le hle
        rw [if_pos this]
        rfl

end JavaExecutor

open JavaExecutor in
/-- C8 counterexample: with an older `page.html` and a newer `data.csv`
in the output tree, the code returns `page.html` (the `*.html` pattern is
tried first and wins), while the claim — most recently modified among the
matches of all patterns — demands `data.csv`. -/
theorem find_report_cex :
    _find_report
      [OutFile.mk "out/page.html" "page.html" 1, OutFile.mk "out/data.csv" "data.csv" 99]
      = some "out/page.html"
    ∧ find_report_claimed
      [OutFile.mk "out/page.html" "page.html" 1, OutFile.mk "out/data.csv" "data.csv" 99]
      = some "out/data.csv"
    ∧ (some "out/page.html" : Option String) ≠ some "out/data.csv" :=
  ⟨by decide, by decide, by decide⟩

open JavaExecutor in
/-- C8 amended: report discovery tries the fixed patterns in order;
the first pattern with at least one match determines the result — a
most-recently-modified file among that pattern's matches (the earliest
such file on mtime ties, by sort stability); if no pattern matches at
all, the result is `none` and no error is raised.  The §8.8 scenario
(`old_report.csv` vs newer `new_report.csv`) is also instantiated. -/
theorem find_report_first_pattern_max
    (files : List OutFile) :
    _find_report files = find_report_first_pattern files report_patterns
    ∧ (_find_report
        [OutFile.mk "out/old_report.csv" "old_report.csv" 10,
         OutFile.mk "out/new_report.csv" "new_report.csv" 20]
        = some "out/new_report.csv") := by
  refine ⟨?_, by decide⟩
  unfold _find_report
  induction report_patterns with
  | nil => rfl
  | cons p ps ih =>
    unfold findReportGo find_report_first_pattern
    have h := head_insertionSort_mtime (files.filter (fun f => globMatch1 p f.name))
    cases hs : List.insertionSort byMtimeDesc (files.filter (fun f => globMatch1 p f.name)) with
    | nil =>
      rw [hs] at h
      simp only [List.head?_nil] at h
      rw [← h]
      exact ih
    | cons r t =>
      rw [hs] at h
      simp only [List.head?_cons] at h
      rw [← h]

namespace JavaExecutor

/-- `ExecutionResult` (java_executor.py).  `execution_time_ms` is an
integer here (the modelled clock ticks in whole milliseconds). -/
structure ExecutionResult where
  success : Bool
  exit_code : Int
  stdout : String
  stderr : String
  execution_time_ms : Int
  report_path : Option String := none
  error_message : Option String := none
deriving DecidableEq

/-- `JavaTestConfig` (java_executor.py); argument and property maps as
association lists. -/
structure JavaTestConfig where
  class_name : String
  method_name : Option String := none
  arguments : List (String × String) := []
  system_properties : List (String × String) := []
  classpath : List String := []
  java_home : Option String := none
  working_dir : Option String := none
  timeout_seconds : Int := 300
  output_dir : Option String := none
deriving DecidableEq

/-- What `subprocess.run` did: completed with an exit code and captured
streams, or raised `TimeoutExpired`. -/
inductive ProcOutcome where
  | timedOut
  | finished (returncode : Int) (stdout stderr : String)
deriving DecidableEq

/-- Marker files present in the working directory. -/
structure BuildMarkers where
  hasPom : Bool := false
  hasBuildGradle : Bool := false
  hasBuildGradleKts : Bool := false
deriving DecidableEq

inductive BuildTool where
  | maven
  | gradle
  | direct
deriving DecidableEq

/-- `JavaExecutor._detect_build_tool`: `pom.xml` → maven, else
`build.gradle` or `build.gradle.kts` → gradle, else direct invocation. -/
def _detect_build_tool (m : BuildMarkers) : BuildTool :=
  if m.hasPom then .maven
  else if m.hasBuildGradle || m.hasBuildGradleKts then .gradle
  else .direct

/-- `JavaExecutor._run_command`: on completion, success iff exit code 0,
report discovered over the output tree, `execution_time_ms` left at 0
(set by the caller); on `TimeoutExpired`, a typed failure with exit code
-1, the fixed message, and `timeout_seconds * 1000` as the elapsed time. -/
def _run_command (outcome : ProcOutcome) (config : JavaTestConfig)
    (outputFiles : List OutFile) : ExecutionResult :=
  match outcome with
  | .finished rc out err =>
      { success := decide (rc = 0), exit_code := rc, stdout := out, stderr := err,
        execution_time_ms := 0, report_path := _find_report outputFiles }
  | .timedOut =>
      { success := false, exit_code := -1, stdout := "",
        stderr := "Execution timed out",
        execution_time_ms := config.timeout_seconds * 1000,
        error_message := some "Execution timed out" }

/-- `JavaExecutor.execute_test`: pick the build tool (all three assemble
different command lines for the external process, whose behavior is the
`outcome` oracle, and produce their result through `_run_command`), then
overwrite `execution_time_ms` with the measured wall-clock time. -/
def execute_test (markers : BuildMarkers) (outcome : ProcOutcome)
    (outputFiles : List OutFile) (elapsed_ms : Int)
    (config : JavaTestConfig) : ExecutionResult :=
  let result :=
    match _detect_build_tool markers with
    | .maven => _run_command outcome config outputFiles
    | .gradle => _run_command outcome config outputFiles
    | .direct => _run_command outcome config outputFiles
  { result with execution_time_ms := elapsed_ms }

end JavaExecutor

open JavaExecutor in
/-- C9 counterexample: on timeout, `_run_command` does set
`execution_time_ms` to the configured timeout in milliseconds, but
`execute_test` then overwrites the field with the measured wall-clock
time, so the returned value is the elapsed time (here 1234 ms with a
1-second timeout), not `timeout * 1000`. -/
theorem execute_timeout_cex :
    execute_test {} .timedOut [] 1234
      (JavaTestConfig.mk "ReportTest" none [] [] [] none none 1 none)
      = ExecutionResult.mk false (-1) "" "Execution timed out" 1234 none
          (some "Execution timed out")
    ∧ (_run_command .timedOut (JavaTestConfig.mk "ReportTest" none [] [] [] none none 1 none) []).execution_time_ms
        = 1000
    ∧ (execute_test {} .timedOut [] 1234
        (JavaTestConfig.mk "ReportTest" none [] [] [] none none 1 none)).execution_time_ms
        ≠ 1 * 1000 :=
  ⟨by decide, by decide, by decide⟩

open JavaExecutor in
/-- C9 amended: whenever the external process exceeds the timeout,
`execute_test` returns a typed failure — `success = false`, exit code -1,
the fixed "Execution timed out" message — and no exception escapes; its
`execution_time_ms` is the measured wall-clock elapsed time
(approximately the timeout), while the configured-timeout-times-1000
value appears only on the inner `_run_command` result before the caller
overwrites it. -/
theorem execute_timeout_amended
    (markers : BuildMarkers) (outputFiles : List OutFile) (elapsed_ms : Int)
    (config : JavaTestConfig) :
    (execute_test markers .timedOut outputFiles elapsed_ms config).success = false
    ∧ (execute_test markers .timedOut outputFiles elapsed_ms config).exit_code = -1
    ∧ (execute_test markers .timedOut outputFiles elapsed_ms config).error_message
        = some "Execution timed out"
    ∧ (execute_test markers .timedOut outputFiles elapsed_ms config).execution_time_ms
        = elapsed_ms
    ∧ (_run_command .timedOut config outputFiles).execution_time_ms
        = config.timeout_seconds * 1000 := by
  unfold execute_test _run_command
  cases _detect_build_tool markers <;> exact ⟨rfl, rfl, rfl, rfl, rfl⟩
